import Mathlib

/-!
Verification of the bracky-tracky analytics engine and its credential proxy.

The analytics engine (file rendering the tracker UI) is embedded as pure Lean
functions over exact rationals; JavaScript numbers are idealised as exact
arithmetic (`ℚ`), extended with signed infinities where the source can produce
them (`ExtQ`), and NaN is represented by `Option` (`none`).  Local time is
modelled with a fixed UTC offset `tz` in milliseconds (the host timezone of
`Date`'s local-time accessors); `now` is the integer millisecond clock reading
of `Date.now()`.
-/

/-- A finite rational or a signed infinity: the non-NaN JavaScript numbers. -/
inductive ExtQ where
  | negInf : ExtQ
  | fin : ℚ → ExtQ
  | posInf : ExtQ
deriving DecidableEq

namespace ExtQ

/-- Boolean order on extended rationals: `negInf ≤ fin q ≤ posInf`. -/
def ble : ExtQ → ExtQ → Bool
  | .negInf, _ => true
  | _, .posInf => true
  | .posInf, _ => false
  | .fin a, .fin b => decide (a ≤ b)
  | .fin _, .negInf => false

/-- Strict order, defined from `ble` as in a linear order. -/
def blt (a b : ExtQ) : Bool := !(ble b a)

/-- Multiplication by 1000 (the seconds-to-milliseconds step); infinities are
absorbed, matching IEEE multiplication by a positive finite number. -/
def scale1000 : ExtQ → ExtQ
  | .negInf => .negInf
  | .posInf => .posInf
  | .fin q => .fin (q * 1000)

/-- Subtraction of an extended number from a finite constant, as in
`now - txTime`: `c - ∞ = -∞` and `c - (-∞) = ∞`. -/
def subL (c : ℚ) : ExtQ → ExtQ
  | .negInf => .posInf
  | .posInf => .negInf
  | .fin q => .fin (c - q)

end ExtQ

/-- Numeric value of a decimal digit character. -/
def digitVal (c : Char) : ℕ := c.toNat - '0'.toNat

/-- The natural number denoted by a list of decimal digit characters. -/
def natOfDigits (l : List Char) : ℕ := l.foldl (fun acc c => 10 * acc + digitVal c) 0

/-- Whitespace trim on both ends of a character list (the observable
behaviour of `String.prototype.trim`; the engine's inputs only carry ASCII
whitespace). -/
def trimChars (l : List Char) : List Char :=
  ((l.dropWhile Char.isWhitespace).reverse.dropWhile Char.isWhitespace).reverse

/-- ASCII lower-casing, as `toLowerCase` acts on the hexadecimal address and
function-name strings the engine compares. -/
def jsToLower (s : String) : String := String.mk (s.data.map Char.toLower)

/-- Decimal digit characters of a natural number, little-endian; the first
argument is recursion fuel (`n` itself always suffices). -/
def natDigitsRev (fuel n : ℕ) : List Char :=
  match fuel with
  | 0 => []
  | f + 1 => if n = 0 then [] else Char.ofNat ('0'.toNat + n % 10) :: natDigitsRev f (n / 10)

/-- Decimal rendering of a natural number. -/
def natToStr (n : ℕ) : String :=
  if n = 0 then "0" else String.mk (natDigitsRev n n).reverse

/-- Decimal rendering of an integer, as JavaScript template interpolation
renders the integral date components. -/
def intToStr (i : ℤ) : String :=
  if i < 0 then "-" ++ natToStr (-i).toNat else natToStr i.toNat

/-- Model of JavaScript `parseInt(s, 10)`: skip surrounding whitespace, read an
optional sign and then the longest prefix of decimal digits, ignoring any
trailing characters; `none` models NaN (no digits found). -/
def jsParseInt (s : String) : Option ℤ :=
  let l := trimChars s.data
  let sgn : ℤ := match l with
    | '-' :: _ => -1
    | _ => 1
  let rest := match l with
    | '-' :: t => t
    | '+' :: t => t
    | t => t
  let digits := rest.takeWhile Char.isDigit
  if digits.isEmpty then none else some (sgn * (natOfDigits digits : ℤ))

/-- Value of an unsigned decimal literal (digits, optional fraction, optional
exponent), or `none` when the characters are not such a literal.  This is the
core of the string-to-number conversion below. -/
def decLitVal (l : List Char) : Option ℚ :=
  let ip := l.takeWhile Char.isDigit
  let rest1 := l.drop ip.length
  let fp := match rest1 with
    | '.' :: t => t.takeWhile Char.isDigit
    | _ => []
  let rest2 := match rest1 with
    | '.' :: t => t.drop (t.takeWhile Char.isDigit).length
    | r => r
  if ip.isEmpty && fp.isEmpty then none
  else
    let mant : ℚ := (natOfDigits ip : ℚ) + (natOfDigits fp : ℚ) / (10 : ℚ) ^ fp.length
    match rest2 with
    | [] => some mant
    | e :: t =>
      if e = 'e' ∨ e = 'E' then
        let esgn : ℤ := match t with
          | '-' :: _ => -1
          | _ => 1
        let t2 := match t with
          | '-' :: u => u
          | '+' :: u => u
          | u => u
        let ed := t2.takeWhile Char.isDigit
        if ed.isEmpty ∨ ¬(t2.drop ed.length).isEmpty then none
        else some (mant * (10 : ℚ) ^ (esgn * (natOfDigits ed : ℤ)))
      else none

/-- Model of JavaScript `Number(s)` on a string: trims whitespace, the empty
string is `0`, an optional sign followed by `Infinity` or a decimal literal;
everything else is NaN (`none`).  Radix-prefixed literals (`0x…`, `0o…`,
`0b…`), which cannot occur in the numeric feed fields, are not modelled. -/
def jsNumber (s : String) : Option ExtQ :=
  let t := trimChars s.data
  if t.isEmpty then some (.fin 0)
  else
    let neg : Bool := match t with
      | '-' :: _ => true
      | _ => false
    let l := match t with
      | '-' :: u => u
      | '+' :: u => u
      | u => u
    if l = "Infinity".data then some (if neg then .negInf else .posInf)
    else match decLitVal l with
      | some q => some (.fin (if neg then -q else q))
      | none => none

/-- Embeds `toMs`: parse the raw timestamp with `Number`; a string of at most
10 characters is taken as seconds and scaled to milliseconds.  `none` models
NaN (absent field or unparseable string). -/
def toMs (ts : Option String) : Option ExtQ :=
  match ts with
  | none => none
  | some raw =>
    let s := trimChars raw.data
    match jsNumber (String.mk s) with
    | none => none
    | some n => some (if s.length ≤ 10 then n.scale1000 else n)

/-- A token-transfer record, with the fields the engine reads.  Every field the
feed may omit is optional; the `hash` display key is not used by the engine. -/
structure Transfer where
  from_ : Option String
  to_ : Option String
  value : Option String
  tokenDecimal : Option String
  timeStamp : Option String
  functionName : Option String
deriving DecidableEq

/-- Model of the JavaScript `x || d` default for an optional string: `d` is
used when the field is absent or the empty string (falsy). -/
def jsOrStr (x : Option String) (d : String) : String :=
  match x with
  | none => d
  | some s => if s = "" then d else s

/-- Embeds `parseValue`: `parseInt(tx.tokenDecimal || "18", 10) || 18` for the
scale (so an absent, empty, unparseable, or zero-parsing `tokenDecimal` all
yield 18, zero because `0` is falsy), `Number(tx.value ?? 0)` for the raw
amount (non-finite gives 0), and the scaled quotient. -/
def parseValue (tx : Transfer) : ℚ :=
  let decimals : ℤ :=
    match jsParseInt (jsOrStr tx.tokenDecimal "18") with
    | none => 18
    | some n => if n = 0 then 18 else n
  let raw : Option ExtQ :=
    match tx.value with
    | none => some (.fin 0)
    | some s => jsNumber s
  match raw with
  | some (.fin q) => q / (10 : ℚ) ^ decimals
  | _ => 0

/-! ## Calendar model

`Date`'s local-time accessors are modelled by a fixed-offset civil calendar:
milliseconds are shifted by the offset `tz`, floored to days, and converted to
a proleptic Gregorian date by the standard era-based algorithm, matching the
month/day-number computation of the ECMAScript specification.  `Date` stores a
time value clipped to `|t| ≤ 8.64e15` and truncated toward zero; out-of-range
values give an invalid date whose components render as `NaN`. -/

/-- A proleptic Gregorian calendar date; `month` is 1-based. -/
structure CivilDate where
  year : ℤ
  month : ℤ
  day : ℤ
deriving DecidableEq

/-- Civil date of a day number (days since 1970-01-01). -/
def civilFromDays (z : ℤ) : CivilDate :=
  let z2 := z + 719468
  let era := z2.fdiv 146097
  let doe := z2 - era * 146097
  let yoe := (doe - doe / 1460 + doe / 36524 - doe / 146096) / 365
  let y := yoe + era * 400
  let doy := doe - (365 * yoe + yoe / 4 - yoe / 100)
  let mp := (5 * doy + 2) / 153
  let d := doy - (153 * mp + 2) / 5 + 1
  let m := mp + (if mp < 10 then 3 else -9)
  ⟨if m ≤ 2 then y + 1 else y, m, d⟩

def msPerDay : ℤ := 86400000

/-- The `Date` time-value range bound (8.64e15 ms around the epoch). -/
def clipMax : ℤ := 8640000000000000

/-- Truncation toward zero, as ECMAScript `ToIntegerOrInfinity` on a finite
number. -/
def jsTrunc (q : ℚ) : ℤ := q.num / (q.den : ℤ)

/-- `TimeClip` on a (possibly infinite) number: an in-range finite value is
truncated to an integer time value, anything else is an invalid date. -/
def timeClipQ (t : ExtQ) : Option ℤ :=
  match t with
  | .fin q => if |q| ≤ (clipMax : ℚ) then some (jsTrunc q) else none
  | _ => none

/-- `TimeClip` on an integer time value. -/
def timeClipInt (t : ℤ) : Option ℤ := if |t| ≤ clipMax then some t else none

/-- Local day number of a time value under offset `tz`. -/
def localDay (tz ms : ℤ) : ℤ := (ms + tz).fdiv msPerDay

/-- Local civil date of a time value. -/
def civilOfMs (tz ms : ℤ) : CivilDate := civilFromDays (localDay tz ms)

/-- The bucket key `getMonth()+1 / getDate()`; an invalid date renders its NaN
components. -/
def keyMD (tz : ℤ) (o : Option ℤ) : String :=
  match o with
  | some ms =>
    let c := civilOfMs tz ms
    intToStr c.month ++ "/" ++ intToStr c.day
  | none => "NaN/NaN"

/-- The streak key `getFullYear()-getMonth()-getDate()` (0-based month). -/
def keyYMD (tz : ℤ) (o : Option ℤ) : String :=
  match o with
  | some ms =>
    let c := civilOfMs tz ms
    intToStr c.year ++ "-" ++ intToStr (c.month - 1) ++ "-" ++ intToStr c.day
  | none => "NaN-NaN-NaN"

/-- Rendering of `toLocaleDateString()` as month/day/year; the locale only
affects the textual layout, not which calendar date is shown. -/
def localeDateStr (tz : ℤ) (o : Option ℤ) : String :=
  match o with
  | some ms =>
    let c := civilOfMs tz ms
    intToStr c.month ++ "/" ++ intToStr c.day ++ "/" ++ intToStr c.year
  | none => "Invalid Date"

/-- Local midnight of the day containing `ms`. -/
def floorToMidnight (tz ms : ℤ) : ℤ := localDay tz ms * msPerDay - tz

/-- `new Date(t)` followed by `setHours(0,0,0,0)`: clip, floor to local
midnight, and clip the stored result again. -/
def jsSetMidnight (tz t : ℤ) : Option ℤ :=
  match timeClipInt t with
  | some ms => timeClipInt (floorToMidnight tz ms)
  | none => none

/-- `new Date(t)` followed by `setHours(23,59,59,999)`: the last millisecond
of the local day containing `t`. -/
def jsSetEndOfDay (tz t : ℤ) : Option ℤ :=
  match timeClipInt t with
  | some ms => timeClipInt (floorToMidnight tz ms + 86399999)
  | none => none

/-! ## Daily aggregator (`groupTransactionsByDay`) -/

/-- One daily bucket of the bar chart. -/
structure TransactionData where
  day : String
  received : ℚ
  sent : ℚ
  net : ℚ
deriving DecidableEq

/-- One point of the balance line chart. -/
structure BalanceChartData where
  day : String
  balance : ℚ
deriving DecidableEq

/-- The trailing-window test `now - txTime > tenDaysMs` that discards a
transfer from the daily aggregation. -/
def olderThanWindow (now : ℤ) (t : ExtQ) : Bool :=
  ExtQ.blt (.fin 864000000) (ExtQ.subL (now : ℚ) t)

/-- Case-insensitive match of an optional counterparty field against an
address, as `(tx.to || "").toLowerCase() === address.toLowerCase()`. -/
def addradarMatch (fld : Option String) (address : String) : Bool :=
  jsToLower (fld.getD "") = jsToLower address

/-- One step of the `dayMap` accumulation of `groupTransactionsByDay`:
invalid or out-of-window timestamps are skipped; otherwise the transfer's
bucket is created if needed, `received`/`sent` is increased when the subject
is recipient/sender, and `net` is recomputed. -/
def dayStep (tz now : ℤ) (address : String) (m : String → Option TransactionData)
    (tx : Transfer) : String → Option TransactionData :=
  match toMs tx.timeStamp with
  | none => m
  | some t =>
    if olderThanWindow now t then m
    else
      let dateKey := keyMD tz (timeClipQ t)
      let cur := (m dateKey).getD ⟨dateKey, 0, 0, 0⟩
      let v := parseValue tx
      let cur2 :=
        if addradarMatch tx.to_ address then
          { cur with received := cur.received + v }
        else if addradarMatch tx.from_ address then
          { cur with sent := cur.sent + v }
        else cur
      let cur3 := { cur2 with net := cur2.received - cur2.sent }
      fun k => if k = dateKey then some cur3 else m k

/-- The `dayMap` object after all transfers are processed, as a finite map
from day keys. -/
def dayMapOf (tz now : ℤ) (transfers : List Transfer) (address : String) :
    String → Option TransactionData :=
  transfers.foldl (dayStep tz now address) (fun _ => none)

/-- Day key of `new Date(now - i*24*60*60*1000)`, the label of the bucket `i`
days before today. -/
def windowKey (tz now i : ℤ) : String := keyMD tz (timeClipInt (now - i * msPerDay))

/-- Embeds `groupTransactionsByDay`: the output loop runs `i = 9 … 0`, pulling
each window day's bucket from `dayMap` or a zero-filled default. -/
def groupTransactionsByDay (tz now : ℤ) (transfers : List Transfer)
    (address : String) : List TransactionData :=
  (List.range 10).map (fun (j : ℕ) =>
    let i : ℤ := 9 - (j : ℤ)
    let dateKey := windowKey tz now i
    (dayMapOf tz now transfers address dateKey).getD ⟨dateKey, 0, 0, 0⟩)

/-! ## Balance reconstructor (`generateBalanceChartFromCurrent`) -/

/-- Signed delta of a transfer relative to the subject address: `+value` to
the recipient, `-value` from the sender, `0` otherwise. -/
def txDelta (address : String) (tx : Transfer) : ℚ :=
  let user := jsToLower address
  let v := parseValue tx
  if jsToLower (tx.to_.getD "") = user then v
  else if jsToLower (tx.from_.getD "") = user then -v
  else 0

/-- The enrichment step: each transfer is mapped to its `(timeMs, delta)`
pair and entries with a NaN timestamp are dropped (`map` + `filter` fused as
`filterMap`). -/
def enrichValid (transfers : List Transfer) (address : String) : List (ExtQ × ℚ) :=
  transfers.filterMap (fun tx =>
    match toMs tx.timeStamp with
    | none => none
    | some t => some (t, txDelta address tx))

/-- The ascending-timestamp order used to sort the enriched pairs. -/
def timeLe (a b : ExtQ × ℚ) : Prop := ExtQ.ble a.1 b.1 = true

instance : DecidableRel timeLe := fun _ _ => instDecidableEqBool _ _

/-- The enriched pairs sorted ascending by timestamp, as by the comparator
`(a, b) => a.timeMs - b.timeMs` (a stable ascending sort, modelled by a stable
insertion sort). -/
def sortedEnriched (transfers : List Transfer) (address : String) : List (ExtQ × ℚ) :=
  (enrichValid transfers address).insertionSort timeLe

/-- The suffix-sum array: entry `i` is the sum of all deltas at index `≥ i`,
built right to left. -/
def suffixSums : List ℚ → List ℚ
  | [] => []
  | d :: ds => (d + (suffixSums ds).headD 0) :: suffixSums ds

/-- The binary-search loop of `sumDeltasAfter`, finding the first index whose
timestamp is strictly greater than `t` with the best answer kept in `ans`.
The loop runs while `lo ≤ hi` and each iteration shrinks `hi + 1 - lo`, so
that quantity is carried as explicit (always-sufficient) structural fuel. -/
def bsLoopF (times : List ExtQ) (t : ℚ) : ℕ → ℕ → ℤ → ℕ → ℕ
  | 0, _, _, ans => ans
  | fuel + 1, lo, hi, ans =>
    if (lo : ℤ) ≤ hi then
      let mid : ℕ := (lo + hi.toNat) / 2
      if ExtQ.blt (.fin t) (times.getD mid (.fin 0)) then
        bsLoopF times t fuel lo ((mid : ℤ) - 1) mid
      else
        bsLoopF times t fuel (mid + 1) hi ans
    else ans

/-- The binary-search loop started as in the source: `lo = 0`,
`hi = length - 1`, `ans = length`. -/
def bsLoop (times : List ExtQ) (t : ℚ) : ℕ :=
  bsLoopF times t times.length 0 ((times.length : ℤ) - 1) times.length

/-- Embeds the closure `sumDeltasAfter`: binary search for the first index
with timestamp `> t`, then the suffix sum at that index (`0` past the end). -/
def sumDeltasAfter (times : List ExtQ) (suffix : List ℚ) (t : ℚ) : ℚ :=
  let ans := bsLoop times t
  if times.length ≤ ans then 0 else suffix.getD ans 0

/-- `sumDeltasAfter` assembled over a transfer collection: enrich, filter,
sort, build suffix sums, and query. -/
def sumDeltasAfterOf (transfers : List Transfer) (address : String) (t : ℚ) : ℚ :=
  let L := sortedEnriched transfers address
  sumDeltasAfter (L.map Prod.fst) (suffixSums (L.map Prod.snd)) t

/-- One point of the reconstructed balance series: query time is the last
millisecond of the local day `i` days before today, the balance is
`currentBalance` minus the deltas after that time, clamped to `≥ 0`.  An
invalid query date compares false against every timestamp, so its delta sum
is `0`; the source's NaN re-check on the result cannot fire over exact
rationals. -/
def balancePoint (tz now : ℤ) (transfers : List Transfer) (address : String)
    (currentBalance : ℚ) (i : ℤ) : BalanceChartData :=
  let dayEnd := jsSetEndOfDay tz (now - i * msPerDay)
  let dateKey := keyMD tz dayEnd
  let after : ℚ :=
    match dayEnd with
    | some tEnd => sumDeltasAfterOf transfers address (tEnd : ℚ)
    | none => 0
  ⟨dateKey, max 0 (currentBalance - after)⟩

/-- Embeds `generateBalanceChartFromCurrent`: ten points pushed for
`i = 9 … 0`. -/
def generateBalanceChartFromCurrent (tz now : ℤ) (transfers : List Transfer)
    (userAddress : String) (currentBalance : ℚ) : List BalanceChartData :=
  (List.range 10).map (fun (j : ℕ) =>
    balancePoint tz now transfers userAddress currentBalance (9 - (j : ℤ)))

/-! ## Streak calculator (`calculateActiveStreak`) -/

/-- The active-day key of one transfer: `none` for a NaN timestamp, otherwise
the local `year-month-day` key of `new Date(txTime)`. -/
def txDayKey (tz : ℤ) (tx : Transfer) : Option String :=
  match toMs tx.timeStamp with
  | none => none
  | some t => some (keyYMD tz (timeClipQ t))

/-- Insertion-order de-duplication, as accumulating into a JavaScript `Set`
and reading it back with `Array.from`. -/
def insertDedup (l : List String) : List String :=
  l.foldl (fun acc k => if acc.contains k then acc else acc ++ [k]) []

/-- The distinct active-day keys of a transfer collection. -/
def activeDaysOf (tz : ℤ) (transfers : List Transfer) : List String :=
  insertDedup (transfers.filterMap (txDayKey tz))

/-- Lexicographic comparison of character lists by code point, the order of
the default JavaScript `Array.sort` on strings (UTF-16 code units). -/
def charListLtB : List Char → List Char → Bool
  | [], [] => false
  | [], _ :: _ => true
  | _ :: _, [] => false
  | a :: as, b :: bs =>
    if a.toNat < b.toNat then true
    else if b.toNat < a.toNat then false
    else charListLtB as bs

/-- The string order used for `sortedDays`. -/
def strSortLe (a b : String) : Prop := charListLtB b.data a.data = false

instance : DecidableRel strSortLe := fun _ _ => instDecidableEqBool _ _

/-- The `sortedDays` array: the active-day keys sorted lexicographically and
reversed (the loop below only uses membership and length, both invariant
under this reordering). -/
def sortedDaysOf (tz : ℤ) (transfers : List Transfer) : List String :=
  ((activeDaysOf tz transfers).insertionSort strSortLe).reverse

/-- The key checked in the walk: the current date floored to local midnight
by `setHours(0,0,0,0)`, then rendered. -/
def midnightKey (tz t : ℤ) : String := keyYMD tz (jsSetMidnight tz t)

/-- The key of `new Date(t)` rendered directly (used by the grace check,
which does not floor to midnight). -/
def rawDayKey (tz t : ℤ) : String := keyYMD tz (timeClipInt t)

/-- The backward walk of `calculateActiveStreak`: at most `days.length`
iterations (its loop counter `i` runs to `days.length`, carried here as the
structural fuel `days.length - i`); a hit counts the day and steps back 24h;
a miss on the very first iteration (`i = 0`, that is fuel `days.length`)
checks yesterday once (grace), any other miss stops the walk. -/
def streakLoopF (tz : ℤ) (days : List String) : ℕ → ℤ → ℕ → ℕ
  | 0, _, streak => streak
  | fuel + 1, cur, streak =>
    let checkKey := midnightKey tz cur
    if days.contains checkKey then
      streakLoopF tz days fuel (cur - msPerDay) (streak + 1)
    else if fuel + 1 = days.length then
      let cur2 := cur - msPerDay
      let yKey := rawDayKey tz cur2
      if days.contains yKey then
        streakLoopF tz days fuel (cur2 - msPerDay) (streak + 1)
      else streak
    else streak

/-- Embeds `calculateActiveStreak`: 0 for an empty collection, otherwise the
backward walk from `now` over the sorted active-day keys, starting with
`i = 0` (full fuel) and `streak = 0`. -/
def calculateActiveStreak (tz now : ℤ) (transfers : List Transfer) : ℕ :=
  if transfers.length = 0 then 0
  else streakLoopF tz (sortedDaysOf tz transfers) (sortedDaysOf tz transfers).length now 0

/-! ## Stats aggregator (`processTransactionData`) -/

/-- The Stats record produced for display.  Numeric fields are kept as exact
rationals; the source renders them with `toFixed(2)` (and carries the
duplicate display fields `netBalance`/`netChange`), which is presentation
only. -/
structure WalletStats where
  addressDisplay : String
  totalReceived : ℚ
  totalSent : ℚ
  totalTransactions : ℕ
  receiveCount : ℕ
  sendCount : ℕ
  currentBalance : ℚ
  balanceTenDaysAgo : ℚ
  netChangeLast10Days : ℚ
  buySharesTotal : ℚ
  buySharesCount : ℕ
  activeStreak : ℕ
  walletCreatedDate : String
deriving DecidableEq

/-- The three structures one engine invocation produces. -/
structure ProcessedData where
  stats : WalletStats
  dailyTx : List TransactionData
  balanceChart : List BalanceChartData
deriving DecidableEq

/-- The designated aggregator contract address. -/
def HANDLEOPS_ADDRESS : String := "0x7f136881b236ed9a403da7a7dd632e9d0390eb63"

/-- Substring test, as JavaScript `String.prototype.includes`. -/
def strIncludes (s pat : String) : Bool := decide (pat.data <:+: s.data)

/-- The batched-operation ("buy shares") tag of a transfer: `functionName`
contains `handleOps` and the recipient is the designated contract. -/
def isBuyShares (tx : Transfer) : Bool :=
  strIncludes (tx.functionName.getD "") "handleOps" &&
    addradarMatch tx.to_ HANDLEOPS_ADDRESS

/-- The mutable accumulators of the main `forEach` loop of
`processTransactionData`. -/
structure Acc10 where
  balanceTenDaysAgo : ℚ
  receivedLast10Days : ℚ
  sentLast10Days : ℚ
  buySharesTotal : ℚ
  buySharesCount : ℕ
deriving DecidableEq

/-- One step of that loop: skip NaN timestamps; accumulate the buy-shares
aggregate; then credit the value to the pre-window balance or to the
in-window received/sent totals depending on which side of the 10-day cutoff
the transfer falls. -/
def accStep (now : ℤ) (userAddress : String) (a : Acc10) (tx : Transfer) : Acc10 :=
  match toMs tx.timeStamp with
  | none => a
  | some t =>
    let v := parseValue tx
    let a1 :=
      if isBuyShares tx then
        { a with buySharesTotal := a.buySharesTotal + v,
                 buySharesCount := a.buySharesCount + 1 }
      else a
    let beforeCutoff := ExtQ.blt t (.fin ((now : ℚ) - 864000000))
    if addradarMatch tx.to_ userAddress then
      if beforeCutoff then { a1 with balanceTenDaysAgo := a1.balanceTenDaysAgo + v }
      else { a1 with receivedLast10Days := a1.receivedLast10Days + v }
    else if addradarMatch tx.from_ userAddress then
      if beforeCutoff then { a1 with balanceTenDaysAgo := a1.balanceTenDaysAgo - v }
      else { a1 with sentLast10Days := a1.sentLast10Days + v }
    else a1

/-- `parseInt(tx.timeStamp)`: an absent field coerces to the string
`undefined`, which has no digits, hence NaN. -/
def parseIntTs (tx : Transfer) : Option ℤ :=
  match tx.timeStamp with
  | none => none
  | some s => jsParseInt s

/-- One step of the `reduce` that finds the earliest transfer: a strictly
smaller raw `parseInt` timestamp replaces the candidate; NaN comparisons are
false and keep the candidate. -/
def earliestStep (e : Option Transfer) (tx : Transfer) : Option Transfer :=
  match e with
  | none => some tx
  | some e0 =>
    match parseIntTs tx, parseIntTs e0 with
    | some a, some b => if a < b then some tx else some e0
    | _, _ => some e0

/-- The `firstTx` of `processTransactionData`. -/
def firstTxOf (transfers : List Transfer) : Option Transfer :=
  transfers.foldl earliestStep none

/-- Embeds the `walletCreatedDate` computation: the raw `parseInt` of the
earliest transfer's timestamp is multiplied by 1000 unconditionally (no
seconds/milliseconds length heuristic) and rendered as a local date. -/
def walletCreatedDateOf (tz : ℤ) (transfers : List Transfer) : String :=
  match firstTxOf transfers with
  | none => "Unknown"
  | some tx =>
    match parseIntTs tx with
    | none => "Invalid Date"
    | some n => localeDateStr tz (timeClipInt (n * 1000))

/-- The truncated display form of the subject address,
`slice(0, 6) + "..." + slice(-4)`. -/
def addressDisplayOf (a : String) : String :=
  String.mk (a.data.take 6) ++ "..." ++ String.mk (a.data.drop (a.data.length - 4))

/-- Embeds `processTransactionData`: wallet-creation date, streak, the
windowed accumulators, lifetime totals over the whole collection,
`currentBalance = totalReceived - totalSent`, the daily buckets and the
balance chart anchored to `currentBalance`. -/
def processTransactionData (tz now : ℤ) (transfers : List Transfer)
    (userAddress : String) : ProcessedData :=
  let walletCreatedDate := walletCreatedDateOf tz transfers
  let activeStreak := calculateActiveStreak tz now transfers
  let acc := transfers.foldl (accStep now userAddress) ⟨0, 0, 0, 0, 0⟩
  let totalReceived :=
    ((transfers.filter (fun tx => addradarMatch tx.to_ userAddress)).map parseValue).sum
  let totalSent :=
    ((transfers.filter (fun tx => addradarMatch tx.from_ userAddress)).map parseValue).sum
  let currentBalance := totalReceived - totalSent
  let netChangeLast10Days := acc.receivedLast10Days - acc.sentLast10Days
  let dailyTx := groupTransactionsByDay tz now transfers userAddress
  let balanceChart :=
    generateBalanceChartFromCurrent tz now transfers userAddress currentBalance
  let receiveCount := transfers.countP (fun tx => addradarMatch tx.to_ userAddress)
  let sendCount := transfers.countP (fun tx => addradarMatch tx.from_ userAddress)
  ⟨⟨addressDisplayOf userAddress, totalReceived, totalSent, transfers.length,
    receiveCount, sendCount, currentBalance, acc.balanceTenDaysAgo,
    netChangeLast10Days, acc.buySharesTotal, acc.buySharesCount, activeStreak,
    walletCreatedDate⟩, dailyTx, balanceChart⟩

/-! ## Credential proxy (`netlify/functions/etherscan-proxy.js`) -/

/-- An incoming proxy request: Netlify delivers the query parameters as an
object with unique keys, modelled as an ordered association list (or absent
altogether). -/
structure ProxyRequest where
  queryStringParameters : Option (List (String × String))
deriving DecidableEq

/-- The server environment the handler reads. -/
structure ProxyEnv where
  etherscanApiKey : Option String
  v2Base : Option String
deriving DecidableEq

/-- The response the handler returns (headers carry no logic and are
omitted). -/
structure ProxyResponse where
  statusCode : ℕ
  body : String
deriving DecidableEq

/-- The reply of one upstream `fetch`. -/
structure FetchReply where
  ok : Bool
  status : ℕ
  text : String
deriving DecidableEq

/-- Property read on the query object, `qs.module`-style: the first binding
of the key. -/
def lookupParam (qs : List (String × String)) (k : String) : Option String :=
  (qs.find? (fun p => decide (p.1 = k))).map Prod.snd

/-- JavaScript falsiness of such a property: absent or the empty string. -/
def falsyParam (qs : List (String × String)) (k : String) : Bool :=
  match lookupParam qs k with
  | none => true
  | some s => s = ""

/-- Replace the value of the first binding of `k` and drop any later
bindings of `k` (the tail behaviour of `URLSearchParams.set`). -/
def replaceFirstK (k v : String) : List (String × String) → List (String × String)
  | [] => []
  | p :: t =>
    if p.1 = k then (k, v) :: t.filter (fun q => decide (q.1 ≠ k))
    else p :: replaceFirstK k v t

/-- `URLSearchParams.set`: replace in place when the key is present, append
at the end otherwise. -/
def setParam (qs : List (String × String)) (k v : String) : List (String × String) :=
  if qs.any (fun p => decide (p.1 = k)) then replaceFirstK k v qs else qs ++ [(k, v)]

/-- Hexadecimal digit character (uppercase, as percent-encoding emits). -/
def hexDigitCh (n : ℕ) : Char :=
  if n < 10 then Char.ofNat ('0'.toNat + n) else Char.ofNat ('A'.toNat + (n - 10))

/-- UTF-8 bytes of one character. -/
def utf8Bytes (c : Char) : List ℕ :=
  let n := c.toNat
  if n < 128 then [n]
  else if n < 2048 then [192 + n / 64, 128 + n % 64]
  else if n < 65536 then [224 + n / 4096, 128 + n / 64 % 64, 128 + n % 64]
  else [240 + n / 262144, 128 + n / 4096 % 64, 128 + n / 64 % 64, 128 + n % 64]

/-- Characters `application/x-www-form-urlencoded` leaves unescaped. -/
def isUnreservedForm (c : Char) : Bool :=
  c.isAlphanum || c = '*' || c = '-' || c = '.' || c = '_'

/-- Percent-encoding of one component in `URLSearchParams.toString()`. -/
def formEncode (s : String) : String :=
  String.mk (s.data.foldr (fun c acc =>
    if isUnreservedForm c then c :: acc
    else if c = ' ' then '+' :: acc
    else (utf8Bytes c).foldr
      (fun b acc2 => '%' :: hexDigitCh (b / 16) :: hexDigitCh (b % 16) :: acc2) acc) [])

/-- `URLSearchParams.toString()`: `k=v` pairs joined by `&` in list order. -/
def serializeParams (qs : List (String × String)) : String :=
  String.intercalate "&" (qs.map (fun p => formEncode p.1 ++ "=" ++ formEncode p.2))

/-- Embeds the handler of `etherscan-proxy.js` as a pure function of the
environment, an upstream fetch oracle (`none` models a thrown fetch, caught
as a 500), and the request.  The second component is the URL forwarded
upstream, `none` when nothing was forwarded.  Response bodies are modelled by
their error messages. -/
def proxyHandler (env : ProxyEnv) (fetch : String → Option FetchReply)
    (req : ProxyRequest) : ProxyResponse × Option String :=
  match env.etherscanApiKey with
  | none => (⟨500, "Missing ETHERSCAN_API_KEY on server"⟩, none)
  | some key =>
    if key = "" then (⟨500, "Missing ETHERSCAN_API_KEY on server"⟩, none)
    else
      let qs := req.queryStringParameters.getD []
      if falsyParam qs "module" || falsyParam qs "action" then
        (⟨400, "Missing required query parameters: module and action"⟩, none)
      else
        let params := setParam qs "apikey" key
        let base := jsOrStr env.v2Base "https://api.etherscan.io/v2/api"
        let targetUrl := base ++ "?" ++ serializeParams params
        match fetch targetUrl with
        | none => (⟨500, "Proxy error"⟩, some targetUrl)
        | some r => (⟨if r.ok then 200 else r.status, r.text⟩, some targetUrl)

/-! ## Claim C4: the value normalizer's defaulting rule -/

/-- Scaled value as the specification sentence states it, for comparison with
the source's `parseValue`: `tokenDecimal` parsed as an integer with the
default 18 applied exactly when the field is absent or fails to parse. -/
def specScaledValue (tx : Transfer) : ℚ :=
  let decimals : ℤ :=
    match tx.tokenDecimal with
    | none => 18
    | some sd =>
      match jsParseInt sd with
      | none => 18
      | some n => n
  let raw : Option ExtQ :=
    match tx.value with
    | none => some (.fin 0)
    | some s => jsNumber s
  match raw with
  | some (.fin q) => q / (10 : ℚ) ^ decimals
  | _ => 0

/-- Scaled value with the defaulting rule the source actually implements:
18 also replaces a `tokenDecimal` that parses to the (falsy) integer 0. -/
def specScaledValueAmended (tx : Transfer) : ℚ :=
  let decimals : ℤ :=
    match tx.tokenDecimal with
    | none => 18
    | some sd =>
      match jsParseInt sd with
      | none => 18
      | some n => if n = 0 then 18 else n
  let raw : Option ExtQ :=
    match tx.value with
    | none => some (.fin 0)
    | some s => jsNumber s
  match raw with
  | some (.fin q) => q / (10 : ℚ) ^ decimals
  | _ => 0

unseal Rat.add Rat.mul Rat.sub Rat.inv in
/-- Claim C4, counterexample: a transfer with `tokenDecimal = "0"` (present
and parsing to the integer 0) is scaled by `10^18`, not `10^0` as the claimed
"default 18 exactly when absent or parse failure" rule would give. -/
theorem parseValue_tokenDecimal_zero_counterexample :
    parseValue ⟨none, none, some "5", some "0", none, none⟩ ≠
      specScaledValue ⟨none, none, some "5", some "0", none, none⟩ := by
  decide

/-- Claim C4 (amended): `parseValue` parses `tokenDecimal` as an integer and
defaults to 18 exactly when the field is absent, fails to parse, or parses to
the falsy integer 0; parses `value` as a number using 0 when the result is
non-finite; and returns `value / 10^decimals`. -/
theorem parseValue_eq_specScaledValueAmended (tx : Transfer) :
    parseValue tx = specScaledValueAmended tx := by
  have h18 : jsParseInt "18" = some 18 := by decide
  have hempty : jsParseInt "" = none := by decide
  unfold parseValue specScaledValueAmended jsOrStr
  cases htd : tx.tokenDecimal with
  | none => simp [h18]
  | some sd =>
    by_cases hs : sd = ""
    · subst hs
      simp [h18, hempty]
    · simp only [if_neg hs]

/-! ## Claims C8, C10: the credential proxy -/

/-- Masking of the values bound to one key, used to state that two query
objects differ only in the value a client supplied for that key. -/
def maskParam (k : String) (qs : List (String × String)) : List (String × String) :=
  qs.map (fun p => if p.1 = k then (p.1, "") else p)

theorem maskParam_fst (k : String) (qs : List (String × String)) :
    (maskParam k qs).map Prod.fst = qs.map Prod.fst := by
  induction qs with
  | nil => rfl
  | cons p t ih =>
    by_cases hp : p.1 = k <;> simp [maskParam, hp] <;> simpa [maskParam] using ih

theorem maskedEntry_fst (k : String) (p : String × String) :
    (if p.1 = k then (p.1, "") else p).1 = p.1 := by
  by_cases hp : p.1 = k <;> simp [hp]

theorem maskParam_head (k : String) (p q : Prod String String)
    (h : (if p.1 = k then (p.1, "") else p) = (if q.1 = k then (q.1, "") else q)) :
    p.1 = q.1 ∧ (p.1 ≠ k → p = q) := by
  have hfst : p.1 = q.1 := by
    have hc := congrArg Prod.fst h
    rwa [maskedEntry_fst, maskedEntry_fst] at hc
  refine ⟨hfst, fun hp => ?_⟩
  have hq : ¬ q.1 = k := hfst ▸ hp
  rwa [if_neg hp, if_neg hq] at h

theorem maskParam_eq_lookup (k kq : String) (hne : kq ≠ k) :
    ∀ qs1 qs2, maskParam k qs1 = maskParam k qs2 →
      lookupParam qs1 kq = lookupParam qs2 kq := by
  intro qs1
  induction qs1 with
  | nil => intro qs2 h; cases qs2 <;> simp_all [maskParam]
  | cons p t ih =>
    intro qs2 h
    cases qs2 with
    | nil => simp [maskParam] at h
    | cons q t2 =>
      simp only [maskParam, List.map_cons, List.cons.injEq] at h
      obtain ⟨hfst, hrest⟩ := maskParam_head k p q h.1
      by_cases hp : p.1 = kq
      · have hq : q.1 = kq := hfst ▸ hp
        have : p = q := hrest (by rw [hp]; exact hne)
        simp [lookupParam, List.find?, hp, hq, this]
      · have hq : ¬ q.1 = kq := hfst ▸ hp
        simpa [lookupParam, List.find?, hp, hq] using ih t2 h.2

theorem maskParam_eq_filter (k : String) :
    ∀ qs1 qs2, maskParam k qs1 = maskParam k qs2 →
      qs1.filter (fun q => decide (q.1 ≠ k)) = qs2.filter (fun q => decide (q.1 ≠ k)) := by
  intro qs1
  induction qs1 with
  | nil => intro qs2 h; cases qs2 <;> simp_all [maskParam]
  | cons p t ih =>
    intro qs2 h
    cases qs2 with
    | nil => simp [maskParam] at h
    | cons q t2 =>
      simp only [maskParam, List.map_cons, List.cons.injEq] at h
      obtain ⟨hfst, hrest⟩ := maskParam_head k p q h.1
      by_cases hp : p.1 = k
      · have hq : q.1 = k := hfst ▸ hp
        simpa [List.filter, hp, hq] using ih t2 h.2
      · have hq : ¬ q.1 = k := hfst ▸ hp
        have hpq := hrest hp
        simpa [List.filter, hp, hq, hpq] using ih t2 h.2

theorem maskParam_eq_replaceFirst (k v : String) :
    ∀ qs1 qs2, maskParam k qs1 = maskParam k qs2 →
      replaceFirstK k v qs1 = replaceFirstK k v qs2 := by
  intro qs1
  induction qs1 with
  | nil => intro qs2 h; cases qs2 <;> simp_all [maskParam]
  | cons p t ih =>
    intro qs2 h
    cases qs2 with
    | nil => simp [maskParam] at h
    | cons q t2 =>
      simp only [maskParam, List.map_cons, List.cons.injEq] at h
      obtain ⟨hfst, hrest⟩ := maskParam_head k p q h.1
      by_cases hp : p.1 = k
      · have hq : q.1 = k := hfst ▸ hp
        simp only [replaceFirstK, if_pos hp, if_pos hq]
        rw [maskParam_eq_filter k t t2 h.2]
      · have hq : ¬ q.1 = k := hfst ▸ hp
        have hpq := hrest hp
        simp only [replaceFirstK, if_neg hp, if_neg hq, hpq]
        rw [ih t2 h.2]

theorem maskParam_id_of_no_key (k : String) (qs : List (String × String))
    (h : ∀ p ∈ qs, ¬ p.1 = k) : maskParam k qs = qs := by
  induction qs with
  | nil => rfl
  | cons p t ih =>
    have hp := h p (by simp)
    simp only [maskParam, List.map_cons, if_neg hp]
    show p :: maskParam k t = p :: t
    rw [ih (fun q hq => h q (by simp [hq]))]

theorem maskParam_eq_setParam (k v : String) (qs1 qs2 : List (String × String))
    (h : maskParam k qs1 = maskParam k qs2) :
    setParam qs1 k v = setParam qs2 k v := by
  have hany : qs1.any (fun p => decide (p.1 = k)) = qs2.any (fun p => decide (p.1 = k)) := by
    have h1 := maskParam_fst k qs1
    have h2 := maskParam_fst k qs2
    have : qs1.map Prod.fst = qs2.map Prod.fst := by rw [← h1, ← h2, h]
    have e1 : ∀ qs : List (String × String),
        qs.any (fun p => decide (p.1 = k)) = (qs.map Prod.fst).any (fun s => decide (s = k)) := by
      intro qs; induction qs with
      | nil => rfl
      | cons p t ih => simp [List.any, ih]
    rw [e1, e1, this]
  by_cases hq : qs1.any (fun p => decide (p.1 = k)) = true
  · rw [setParam, setParam, if_pos hq, if_pos (hany ▸ hq)]
    exact maskParam_eq_replaceFirst k v qs1 qs2 h
  · have hq2 : ¬ qs2.any (fun p => decide (p.1 = k)) = true := hany ▸ hq
    have hn1 : ∀ p ∈ qs1, ¬ p.1 = k := by
      intro p hp hc
      exact hq (List.any_eq_true.mpr ⟨p, hp, by simp [hc]⟩)
    have hn2 : ∀ p ∈ qs2, ¬ p.1 = k := by
      intro p hp hc
      exact hq2 (List.any_eq_true.mpr ⟨p, hp, by simp [hc]⟩)
    have : qs1 = qs2 := by
      rw [← maskParam_id_of_no_key k qs1 hn1, ← maskParam_id_of_no_key k qs2 hn2, h]
    rw [setParam, setParam, if_neg hq, if_neg hq2, this]

theorem replaceFirstK_lookup (k v : String) :
    ∀ qs : List (String × String), qs.any (fun p => decide (p.1 = k)) = true →
      lookupParam (replaceFirstK k v qs) k = some v := by
  intro qs
  induction qs with
  | nil => simp
  | cons p t ih =>
    intro hany
    by_cases hp : p.1 = k
    · simp [replaceFirstK, if_pos hp, lookupParam, List.find?]
    · have htail : t.any (fun p => decide (p.1 = k)) = true := by
        simpa [List.any, hp] using hany
      simpa [replaceFirstK, if_neg hp, lookupParam, List.find?, hp] using ih htail

theorem lookup_append_of_no_key (k v : String) :
    ∀ qs : List (String × String), (∀ p ∈ qs, ¬ p.1 = k) →
      lookupParam (qs ++ [(k, v)]) k = some v := by
  intro qs
  induction qs with
  | nil => simp [lookupParam, List.find?]
  | cons p t ih =>
    intro hno
    have hp := hno p (by simp)
    simpa [lookupParam, List.find?, hp] using ih (fun q hq => hno q (by simp [hq]))

/-- After `URLSearchParams.set`, the key is bound to the server value. -/
theorem setParam_lookup (k v : String) (qs : List (String × String)) :
    lookupParam (setParam qs k v) k = some v := by
  by_cases hany : qs.any (fun p => decide (p.1 = k)) = true
  · rw [setParam, if_pos hany]
    exact replaceFirstK_lookup k v qs hany
  · rw [setParam, if_neg hany]
    refine lookup_append_of_no_key k v qs ?_
    intro p hp hc
    exact hany (List.any_eq_true.mpr ⟨p, hp, by simp [hc]⟩)

theorem replaceFirstK_all (k v : String) :
    ∀ qs : List (String × String), ∀ p ∈ replaceFirstK k v qs, p.1 = k → p.2 = v := by
  intro qs
  induction qs with
  | nil => simp [replaceFirstK]
  | cons q t ih =>
    intro p hp hk1
    by_cases hq : q.1 = k
    · rw [replaceFirstK, if_pos hq] at hp
      rcases List.mem_cons.mp hp with h | h
      · rw [h]
      · have := List.of_mem_filter h
        simp at this
        exact absurd hk1 this
    · rw [replaceFirstK, if_neg hq] at hp
      rcases List.mem_cons.mp hp with h | h
      · exact absurd (h ▸ hk1) hq
      · exact ih p h hk1

/-- After `URLSearchParams.set`, every binding of the key carries the server
value: no client-supplied value survives. -/
theorem setParam_all (k v : String) (qs : List (String × String)) :
    ∀ p ∈ setParam qs k v, p.1 = k → p.2 = v := by
  intro p hp hk1
  by_cases hany : qs.any (fun q => decide (q.1 = k)) = true
  · rw [setParam, if_pos hany] at hp
    exact replaceFirstK_all k v qs p hp hk1
  · rw [setParam, if_neg hany] at hp
    rcases List.mem_append.mp hp with h | h
    · exact absurd (List.any_eq_true.mpr ⟨p, h, by simp [hk1]⟩) hany
    · simp at h
      rw [h]

/-- Claim C8: with the server credential configured, every request missing
the `module` or the `action` query parameter is rejected with status 400 and
nothing is forwarded upstream. -/
theorem proxyHandler_missing_param_rejects (env : ProxyEnv)
    (fetch : String → Option FetchReply) (req : ProxyRequest) (key : String)
    (hk : env.etherscanApiKey = some key) (hk2 : key ≠ "")
    (hmiss : lookupParam (req.queryStringParameters.getD []) "module" = none ∨
      lookupParam (req.queryStringParameters.getD []) "action" = none) :
    (proxyHandler env fetch req).1.statusCode = 400 ∧
      (proxyHandler env fetch req).2 = none := by
  rcases hmiss with h | h
  · simp [proxyHandler, hk, hk2, falsyParam, h]
  · simp [proxyHandler, hk, hk2, falsyParam, h]

/-- Claim C8, witness: a request with no query parameters at all is rejected
with 400 and no upstream fetch. -/
theorem proxyHandler_missing_param_rejects_witness :
    (proxyHandler ⟨some "K", none⟩ (fun _ => none) ⟨none⟩).1.statusCode = 400 ∧
      (proxyHandler ⟨some "K", none⟩ (fun _ => none) ⟨none⟩).2 = none :=
  proxyHandler_missing_param_rejects ⟨some "K", none⟩ (fun _ => none) ⟨none⟩ "K"
    rfl (by decide) (Or.inl (by decide))

/-- Claim C10: the forwarded URL serialises the query with the server-held
credential as its (only) `apikey` binding, overwriting any client-supplied
value; hence two requests that agree after masking the `apikey` value get
identical forwarded URLs and an identical response. -/
theorem proxyHandler_credential_independence (env : ProxyEnv)
    (fetch : String → Option FetchReply) (key : String)
    (qs1 qs2 : List (String × String))
    (hk : env.etherscanApiKey = some key)
    (hmask : maskParam "apikey" qs1 = maskParam "apikey" qs2) :
    lookupParam (setParam qs1 "apikey" key) "apikey" = some key ∧
    (∀ p ∈ setParam qs1 "apikey" key, p.1 = "apikey" → p.2 = key) ∧
    ((proxyHandler env fetch ⟨some qs1⟩).2 = none ∨
      (proxyHandler env fetch ⟨some qs1⟩).2 =
        some (jsOrStr env.v2Base "https://api.etherscan.io/v2/api" ++ "?" ++
          serializeParams (setParam qs1 "apikey" key))) ∧
    proxyHandler env fetch ⟨some qs1⟩ = proxyHandler env fetch ⟨some qs2⟩ := by
  have hset : ∀ v, setParam qs1 "apikey" v = setParam qs2 "apikey" v :=
    fun v => maskParam_eq_setParam "apikey" v qs1 qs2 hmask
  have hfm : falsyParam qs1 "module" = falsyParam qs2 "module" := by
    unfold falsyParam
    rw [maskParam_eq_lookup "apikey" "module" (by decide) qs1 qs2 hmask]
  have hfa : falsyParam qs1 "action" = falsyParam qs2 "action" := by
    unfold falsyParam
    rw [maskParam_eq_lookup "apikey" "action" (by decide) qs1 qs2 hmask]
  refine ⟨setParam_lookup "apikey" key qs1, setParam_all "apikey" key qs1, ?_, ?_⟩
  · unfold proxyHandler
    rw [hk]
    by_cases hk2 : key = ""
    · simp [hk2]
    · simp only [if_neg hk2, Option.getD]
      by_cases hcond : (falsyParam qs1 "module" || falsyParam qs1 "action") = true
      · simp [hcond]
      · simp only [Bool.not_eq_true] at hcond
        simp only [hcond, Bool.false_eq_true, if_false]
        cases fetch (jsOrStr env.v2Base "https://api.etherscan.io/v2/api" ++ "?" ++
            serializeParams (setParam qs1 "apikey" key)) <;> simp
  · unfold proxyHandler
    rw [hk]
    by_cases hk2 : key = ""
    · simp [hk2]
    · simp only [if_neg hk2, Option.getD, hfm, hfa, hset]

/-- Claim C10, witness: two concrete requests differing only in the
client-supplied `apikey` value. -/
theorem proxyHandler_credential_independence_witness :
    lookupParam (setParam [("module", "a"), ("action", "b"), ("apikey", "x")]
        "apikey" "K") "apikey" = some "K" ∧
    (∀ p ∈ setParam [("module", "a"), ("action", "b"), ("apikey", "x")] "apikey" "K",
      p.1 = "apikey" → p.2 = "K") ∧
    ((proxyHandler ⟨some "K", none⟩ (fun u => some ⟨true, 200, u⟩)
        ⟨some [("module", "a"), ("action", "b"), ("apikey", "x")]⟩).2 = none ∨
      (proxyHandler ⟨some "K", none⟩ (fun u => some ⟨true, 200, u⟩)
        ⟨some [("module", "a"), ("action", "b"), ("apikey", "x")]⟩).2 =
        some (jsOrStr (ProxyEnv.mk (some "K") none).v2Base
            "https://api.etherscan.io/v2/api" ++ "?" ++
          serializeParams (setParam [("module", "a"), ("action", "b"), ("apikey", "x")]
            "apikey" "K"))) ∧
    proxyHandler ⟨some "K", none⟩ (fun u => some ⟨true, 200, u⟩)
        ⟨some [("module", "a"), ("action", "b"), ("apikey", "x")]⟩ =
      proxyHandler ⟨some "K", none⟩ (fun u => some ⟨true, 200, u⟩)
        ⟨some [("module", "a"), ("action", "b"), ("apikey", "y")]⟩ :=
  proxyHandler_credential_independence ⟨some "K", none⟩ (fun u => some ⟨true, 200, u⟩)
    "K" [("module", "a"), ("action", "b"), ("apikey", "x")]
    [("module", "a"), ("action", "b"), ("apikey", "y")] rfl (by decide)

/-! ## Claim C7: the wallet-creation date -/

/-- Wallet-creation date as the specification sentences state it, for
comparison with the source: the calendar date of the transfer with the
smallest parsed timestamp, where `timeStamp` is parsed under the
seconds-or-milliseconds length heuristic (`toMs`). -/
def specWalletCreatedDate (tz : ℤ) (transfers : List Transfer) : String :=
  if transfers.isEmpty then "Unknown"
  else
    match transfers.filterMap (fun tx => toMs tx.timeStamp) with
    | [] => "Invalid Date"
    | t0 :: rest =>
      localeDateStr tz (timeClipQ (rest.foldl (fun m t => if ExtQ.ble t m then t else m) t0))

unseal Rat.add Rat.mul Rat.sub Rat.inv in
/-- Claim C7, counterexample: a single transfer whose `timeStamp` has more
than 10 digits (milliseconds under the claimed heuristic).  The source
multiplies the raw `parseInt` by 1000 unconditionally, so it renders the year
2603 where the heuristic reading gives 1970. -/
theorem walletCreatedDate_heuristic_counterexample :
    walletCreatedDateOf 0 [⟨none, none, none, none, some "20000000000", none⟩] ≠
      specWalletCreatedDate 0 [⟨none, none, none, none, some "20000000000", none⟩] := by
  decide

theorem earliest_fold_min (txs : List Transfer) :
    ∀ (e0 : Transfer) (n0 : ℤ), parseIntTs e0 = some n0 →
      (∀ tx ∈ txs, (parseIntTs tx).isSome) →
      ∃ r n, txs.foldl earliestStep (some e0) = some r ∧
        parseIntTs r = some n ∧ n ≤ n0 ∧
        (∀ tx ∈ txs, ∀ m, parseIntTs tx = some m → n ≤ m) := by
  induction txs with
  | nil =>
    intro e0 n0 h0 _
    exact ⟨e0, n0, rfl, h0, le_refl n0, by simp⟩
  | cons tx t ih =>
    intro e0 n0 h0 hall
    obtain ⟨a, ha⟩ := Option.isSome_iff_exists.mp (hall tx (by simp))
    by_cases hlt : a < n0
    · have hstep : earliestStep (some e0) tx = some tx := by
        simp [earliestStep, ha, h0, hlt]
      obtain ⟨r, n, hr, hn, hle, hmin⟩ :=
        ih tx a ha (fun q hq => hall q (by simp [hq]))
      refine ⟨r, n, by simpa [hstep] using hr, hn, le_trans hle (le_of_lt hlt), ?_⟩
      intro q hq m hm
      rcases List.mem_cons.mp hq with h | h
      · rw [h] at hm
        rw [hm] at ha
        cases Option.some.inj ha
        exact hle
      · exact hmin q h m hm
    · have hstep : earliestStep (some e0) tx = some e0 := by
        simp [earliestStep, ha, h0, hlt]
      obtain ⟨r, n, hr, hn, hle, hmin⟩ :=
        ih e0 n0 h0 (fun q hq => hall q (by simp [hq]))
      refine ⟨r, n, by simpa [hstep] using hr, hn, hle, ?_⟩
      intro q hq m hm
      rcases List.mem_cons.mp hq with h | h
      · rw [h] at hm
        rw [hm] at ha
        cases Option.some.inj ha
        exact le_trans hle (le_of_not_lt hlt)
      · exact hmin q h m hm

theorem mem_of_fold_earliest (txs : List Transfer) :
    ∀ (e0 r : Transfer), txs.foldl earliestStep (some e0) = some r →
      r = e0 ∨ r ∈ txs := by
  induction txs with
  | nil => intro e0 r h; cases h; exact Or.inl rfl
  | cons tx t ih =>
    intro e0 r h
    rw [List.foldl_cons] at h
    have hcase : earliestStep (some e0) tx = some e0 ∨ earliestStep (some e0) tx = some tx := by
      unfold earliestStep
      rcases ha : parseIntTs tx with _ | a
      · simp [ha]
      · rcases hb : parseIntTs e0 with _ | b
        · simp [ha, hb]
        · by_cases hab : a < b
          · simp [ha, hb, hab]
          · simp [ha, hb, hab]
    rcases hcase with hc | hc
    · rw [hc] at h
      rcases ih e0 r h with h1 | h1
      · exact Or.inl h1
      · exact Or.inr (by simp [h1])
    · rw [hc] at h
      rcases ih tx r h with h1 | h1
      · exact Or.inr (by simp [h1])
      · exact Or.inr (by simp [h1])

/-- Claim C7 (amended): for a non-empty collection whose timestamps all
`parseInt`, `walletCreatedDate` is the locale-rendered calendar date of
`1000 ×` the smallest raw `parseInt(timeStamp)` (timestamps taken as seconds
unconditionally, with no length heuristic); the empty collection yields
`"Unknown"`. -/
theorem walletCreatedDate_amended (tz : ℤ) (transfers : List Transfer)
    (hne : transfers ≠ [])
    (hall : ∀ tx ∈ transfers, (parseIntTs tx).isSome) :
    (∃ tx0 n0, tx0 ∈ transfers ∧ parseIntTs tx0 = some n0 ∧
      (∀ tx ∈ transfers, ∀ m, parseIntTs tx = some m → n0 ≤ m) ∧
      walletCreatedDateOf tz transfers = localeDateStr tz (timeClipInt (n0 * 1000))) ∧
    walletCreatedDateOf tz [] = "Unknown" := by
  refine ⟨?_, rfl⟩
  obtain ⟨tx1, t, rfl⟩ : ∃ tx1 t, transfers = tx1 :: t := by
    cases transfers with
    | nil => exact absurd rfl hne
    | cons a b => exact ⟨a, b, rfl⟩
  obtain ⟨n1, hn1⟩ := Option.isSome_iff_exists.mp (hall tx1 (by simp))
  obtain ⟨r, n, hr, hn, hle, hmin⟩ :=
    earliest_fold_min t tx1 n1 hn1 (fun q hq => hall q (by simp [hq]))
  have hfold : firstTxOf (tx1 :: t) = some r := by
    unfold firstTxOf
    rw [List.foldl_cons]
    simpa [earliestStep] using hr
  have hrmem : r ∈ tx1 :: t := by
    rcases mem_of_fold_earliest t tx1 r hr with h | h
    · simp [h]
    · simp [h]
  refine ⟨r, n, hrmem, hn, ?_, ?_⟩
  · intro q hq m hm
    rcases List.mem_cons.mp hq with h | h
    · rw [h] at hm
      rw [hm] at hn1
      cases Option.some.inj hn1
      exact hle
    · exact hmin q h m hm
  · unfold walletCreatedDateOf
    rw [hfold]
    simp [hn]

/-- Claim C7, witness: two parseable timestamps; the fold selects the raw
minimum 100. -/
theorem walletCreatedDate_amended_witness :
    (∃ tx0 n0, tx0 ∈ ([⟨none, none, none, none, some "9999999999", none⟩,
          ⟨none, none, none, none, some "100", none⟩] : List Transfer) ∧
      parseIntTs tx0 = some n0 ∧
      (∀ tx ∈ ([⟨none, none, none, none, some "9999999999", none⟩,
          ⟨none, none, none, none, some "100", none⟩] : List Transfer),
        ∀ m, parseIntTs tx = some m → n0 ≤ m) ∧
      walletCreatedDateOf 0 [⟨none, none, none, none, some "9999999999", none⟩,
          ⟨none, none, none, none, some "100", none⟩] =
        localeDateStr 0 (timeClipInt (n0 * 1000))) ∧
    walletCreatedDateOf 0 [] = "Unknown" :=
  walletCreatedDate_amended 0
    [⟨none, none, none, none, some "9999999999", none⟩,
      ⟨none, none, none, none, some "100", none⟩]
    (by decide) (by decide)

/-! ## Claim C9: the balance decomposition identity -/

unseal Rat.add Rat.mul Rat.sub Rat.inv in
/-- Claim C9, counterexample: a single self-transfer (subject is both sender
and recipient) with a valid timestamp.  The lifetime totals count it on both
sides (`currentBalance = 0`) while the windowed loop's if/else credits it
once as received (`netChangeLast10Days = 5 / 10^18`), so the claimed identity
fails. -/
theorem balance_decomposition_counterexample :
    (processTransactionData 0 0 [⟨some "a", some "a", some "5", some "0", some "100", none⟩]
        "a").stats.currentBalance ≠
      (processTransactionData 0 0 [⟨some "a", some "a", some "5", some "0", some "100", none⟩]
          "a").stats.balanceTenDaysAgo +
        (processTransactionData 0 0 [⟨some "a", some "a", some "5", some "0", some "100", none⟩]
            "a").stats.netChangeLast10Days := by
  decide

theorem accStep_decomposition (now : ℤ) (addr : String) (txs : List Transfer) :
    ∀ a : Acc10,
      (∀ tx ∈ txs, (toMs tx.timeStamp).isSome) →
      (∀ tx ∈ txs, ¬(addradarMatch tx.to_ addr = true ∧ addradarMatch tx.from_ addr = true)) →
      (txs.foldl (accStep now addr) a).balanceTenDaysAgo +
        ((txs.foldl (accStep now addr) a).receivedLast10Days -
          (txs.foldl (accStep now addr) a).sentLast10Days) =
      (a.balanceTenDaysAgo + (a.receivedLast10Days - a.sentLast10Days)) +
        (((txs.filter (fun tx => addradarMatch tx.to_ addr)).map parseValue).sum -
          ((txs.filter (fun tx => addradarMatch tx.from_ addr)).map parseValue).sum) := by
  induction txs with
  | nil => intro a _ _; simp
  | cons tx t ih =>
    intro a hvalid hnoself
    obtain ⟨t0, ht0⟩ := Option.isSome_iff_exists.mp (hvalid tx (by simp))
    have hrec := ih (accStep now addr a tx)
      (fun q hq => hvalid q (by simp [hq]))
      (fun q hq => hnoself q (by simp [hq]))
    simp only [List.foldl_cons]
    rw [hrec]
    have hstep : (accStep now addr a tx).balanceTenDaysAgo +
        ((accStep now addr a tx).receivedLast10Days - (accStep now addr a tx).sentLast10Days) =
        (a.balanceTenDaysAgo + (a.receivedLast10Days - a.sentLast10Days)) +
          ((if addradarMatch tx.to_ addr then parseValue tx else 0) -
            (if addradarMatch tx.from_ addr then parseValue tx else 0)) := by
      unfold accStep
      rw [ht0]
      by_cases hto : addradarMatch tx.to_ addr
      · have hfrom : ¬ addradarMatch tx.from_ addr = true := by
          intro hc
          exact hnoself tx (by simp) ⟨hto, hc⟩
        by_cases hbs : isBuyShares tx = true <;>
          by_cases hc : ExtQ.blt t0 (.fin ((now : ℚ) - 864000000)) = true <;>
            simp [hto, hfrom, hbs, hc] <;> ring
      · by_cases hfrom : addradarMatch tx.from_ addr
        · by_cases hbs : isBuyShares tx = true <;>
            by_cases hc : ExtQ.blt t0 (.fin ((now : ℚ) - 864000000)) = true <;>
              simp [hto, hfrom, hbs, hc] <;> ring
        · by_cases hbs : isBuyShares tx = true <;>
            simp [hto, hfrom, hbs]
    rw [hstep]
    by_cases hto : addradarMatch tx.to_ addr <;>
      by_cases hfrom : addradarMatch tx.from_ addr <;>
        simp [hto, hfrom] <;> ring

/-- Claim C9 (amended): when every timestamp parses and no transfer is a
self-transfer of the subject (the if/else of the windowed loop and the two
independent lifetime filters then count the same events), the summary
satisfies `currentBalance = balanceTenDaysAgo + netChangeLast10Days`
exactly. -/
theorem balance_decomposition (tz now : ℤ) (transfers : List Transfer)
    (addr : String)
    (hvalid : ∀ tx ∈ transfers, (toMs tx.timeStamp).isSome)
    (hnoself : ∀ tx ∈ transfers,
      ¬(addradarMatch tx.to_ addr = true ∧ addradarMatch tx.from_ addr = true)) :
    (processTransactionData tz now transfers addr).stats.currentBalance =
      (processTransactionData tz now transfers addr).stats.balanceTenDaysAgo +
        (processTransactionData tz now transfers addr).stats.netChangeLast10Days := by
  have h := accStep_decomposition now addr transfers ⟨0, 0, 0, 0, 0⟩ hvalid hnoself
  simp only at h
  unfold processTransactionData
  simp only
  rw [h]
  ring

/-- Claim C9, witness: one ordinary received transfer with a valid
timestamp. -/
theorem balance_decomposition_witness :
    (processTransactionData 0 0 [⟨some "b", some "a", some "5", some "1", some "100", none⟩]
        "A").stats.currentBalance =
      (processTransactionData 0 0 [⟨some "b", some "a", some "5", some "1", some "100", none⟩]
          "A").stats.balanceTenDaysAgo +
        (processTransactionData 0 0 [⟨some "b", some "a", some "5", some "1", some "100", none⟩]
            "A").stats.netChangeLast10Days :=
  balance_decomposition 0 0 [⟨some "b", some "a", some "5", some "1", some "100", none⟩]
    "A" (by decide) (by decide)

/-! ## Claims C5, C6: the streak calculator -/

/-- The pure backward walk the streak loop performs after its first
iteration: count consecutive hit days going back, bounded by the remaining
iteration budget. -/
def goWalk (tz : ℤ) (days : List String) : ℕ → ℤ → ℕ
  | 0, _ => 0
  | f + 1, cur =>
    if days.contains (midnightKey tz cur) then 1 + goWalk tz days f (cur - msPerDay)
    else 0

theorem streakLoopF_shift (tz : ℤ) (days : List String) :
    ∀ (f : ℕ) (cur : ℤ) (s : ℕ), f < days.length →
      streakLoopF tz days f cur s = s + goWalk tz days f cur := by
  intro f
  induction f with
  | zero => intro cur s _; simp [streakLoopF, goWalk]
  | succ f ih =>
    intro cur s hf
    rw [streakLoopF, goWalk]
    by_cases hc : days.contains (midnightKey tz cur) = true
    · rw [if_pos hc, if_pos hc, ih (cur - msPerDay) (s + 1) (by omega)]
      omega
    · rw [if_neg hc, if_neg hc, if_neg (by omega : ¬ f + 1 = days.length)]
      omega

theorem goWalk_mono (tz : ℤ) (days days2 : List String)
    (hsub : ∀ k, days.contains k = true → days2.contains k = true) :
    ∀ (f f2 : ℕ) (cur : ℤ), f ≤ f2 →
      goWalk tz days f cur ≤ goWalk tz days2 f2 cur := by
  intro f
  induction f with
  | zero => intro f2 cur _; simp [goWalk]
  | succ f ih =>
    intro f2 cur hf
    obtain ⟨f3, rfl⟩ : ∃ f3, f2 = f3 + 1 := ⟨f2 - 1, by omega⟩
    rw [goWalk, goWalk]
    by_cases hc : days.contains (midnightKey tz cur) = true
    · rw [if_pos hc, if_pos (hsub _ hc)]
      have := ih f3 (cur - msPerDay) (by omega)
      omega
    · rw [if_neg hc]
      omega

theorem goWalk_congr (tz : ℤ) (days days2 : List String)
    (hcont : ∀ k, days.contains k = days2.contains k) :
    ∀ (f : ℕ) (cur : ℤ), goWalk tz days f cur = goWalk tz days2 f cur := by
  intro f
  induction f with
  | zero => intro cur; rfl
  | succ f ih =>
    intro cur
    rw [goWalk, goWalk, hcont, ih]

theorem contains_eq_of_perm {l l2 : List String} (h : l.Perm l2) (k : String) :
    l.contains k = l2.contains k := by
  by_cases hk : k ∈ l
  · have h1 : l.contains k = true := List.elem_iff.mpr hk
    have h2 : l2.contains k = true := List.elem_iff.mpr (h.mem_iff.mp hk)
    rw [h1, h2]
  · have hk2 : ¬ k ∈ l2 := fun hc => hk (h.mem_iff.mpr hc)
    have h1 : l.contains k = false := by
      cases hcc : l.contains k
      · rfl
      · exact absurd (List.elem_iff.mp hcc) hk
    have h2 : l2.contains k = false := by
      cases hcc : l2.contains k
      · rfl
      · exact absurd (List.elem_iff.mp hcc) hk2
    rw [h1, h2]

theorem streakLoopF_perm (tz : ℤ) {days days2 : List String} (h : days.Perm days2) :
    ∀ (f : ℕ) (cur : ℤ) (s : ℕ),
      streakLoopF tz days f cur s = streakLoopF tz days2 f cur s := by
  intro f
  induction f with
  | zero => intro cur s; rfl
  | succ f ih =>
    intro cur s
    rw [streakLoopF, streakLoopF]
    simp only [contains_eq_of_perm h, h.length_eq, ih]

theorem sortedDaysOf_perm (tz : ℤ) (transfers : List Transfer) :
    (sortedDaysOf tz transfers).Perm (activeDaysOf tz transfers) :=
  (List.reverse_perm _).trans (List.perm_insertionSort _ _)

/-- The streak of a non-empty collection, rephrased over the unsorted
distinct-day list (the loop only reads membership and length, both preserved
by sorting and reversing). -/
theorem calculateActiveStreak_eq_active (tz now : ℤ) (transfers : List Transfer)
    (hne : ¬ transfers.length = 0) :
    calculateActiveStreak tz now transfers =
      streakLoopF tz (activeDaysOf tz transfers)
        (activeDaysOf tz transfers).length now 0 := by
  rw [calculateActiveStreak, if_neg hne,
    (sortedDaysOf_perm tz transfers).length_eq,
    streakLoopF_perm tz (sortedDaysOf_perm tz transfers)]

theorem mem_insertDedup_fold (l : List String) :
    ∀ (acc : List String) (k : String),
      k ∈ l.foldl (fun acc k => if acc.contains k then acc else acc ++ [k]) acc ↔
        k ∈ acc ∨ k ∈ l := by
  induction l with
  | nil => intro acc k; simp
  | cons a t ih =>
    intro acc k
    rw [List.foldl_cons]
    by_cases hc : acc.contains a = true
    · rw [if_pos hc, ih]
      constructor
      · rintro (h | h)
        · exact Or.inl h
        · exact Or.inr (by simp [h])
      · rintro (h | h)
        · exact Or.inl h
        · rcases List.mem_cons.mp h with h | h
          · exact Or.inl (h ▸ List.elem_iff.mp hc)
          · exact Or.inr h
    · rw [if_neg hc, ih]
      constructor
      · rintro (h | h)
        · rcases List.mem_append.mp h with h | h
          · exact Or.inl h
          · simp at h
            exact Or.inr (by simp [h])
        · exact Or.inr (by simp [h])
      · rintro (h | h)
        · exact Or.inl (by simp [h])
        · rcases List.mem_cons.mp h with h | h
          · exact Or.inl (by simp [h])
          · exact Or.inr h

theorem mem_insertDedup (l : List String) (k : String) :
    k ∈ insertDedup l ↔ k ∈ l := by
  rw [insertDedup, mem_insertDedup_fold]
  simp

theorem insertDedup_append_one (l : List String) (k : String) :
    insertDedup (l ++ [k]) =
      if (insertDedup l).contains k then insertDedup l else insertDedup l ++ [k] := by
  rw [insertDedup, insertDedup, List.foldl_append]
  rfl

/-- Claim C5: when today's calendar day has no activity, the streak
calculator checks yesterday exactly once: if yesterday is active the result
counts yesterday and continues the backward walk from two days ago with the
remaining iteration budget, otherwise it is 0; the empty collection gives 0.
The single-transfer-yesterday scenario instantiates the `then` branch with a
zero-length continuation, giving streak 1. -/
theorem streak_grace_rule (tz now : ℤ) (transfers : List Transfer)
    (hT : (activeDaysOf tz transfers).contains (midnightKey tz now) = false) :
    (calculateActiveStreak tz now transfers =
      if (activeDaysOf tz transfers).contains (rawDayKey tz (now - msPerDay)) then
        1 + goWalk tz (activeDaysOf tz transfers)
          ((activeDaysOf tz transfers).length - 1) (now - 2 * msPerDay)
      else 0) ∧
    calculateActiveStreak tz now [] = 0 := by
  refine ⟨?_, rfl⟩
  by_cases hlen : transfers.length = 0
  · have htr : transfers = [] := List.length_eq_zero.mp hlen
    subst htr
    simp [calculateActiveStreak, activeDaysOf, insertDedup]
  · rw [calculateActiveStreak_eq_active tz now transfers hlen]
    rcases hlen2 : (activeDaysOf tz transfers).length with _ | f
    · have hdnil : activeDaysOf tz transfers = [] := List.length_eq_zero.mp hlen2
      rw [hdnil]
      simp [streakLoopF]
    · rw [streakLoopF]
      rw [if_neg (by rw [hT]; exact Bool.false_ne_true)]
      rw [if_pos (hlen2.symm)]
      by_cases hy : (activeDaysOf tz transfers).contains (rawDayKey tz (now - msPerDay)) = true
      · rw [if_pos hy, if_pos hy,
          streakLoopF_shift tz (activeDaysOf tz transfers) f (now - msPerDay - msPerDay) 1
            (by omega)]
        have harith : now - msPerDay - msPerDay = now - 2 * msPerDay := by ring
        rw [harith, Nat.add_sub_cancel]
      · rw [if_neg hy, if_neg hy]

unseal Rat.add Rat.mul Rat.sub Rat.inv in
/-- Claim C5, witness: one transfer yesterday and none today yields streak 1
(the grace rule counts yesterday; the continuation walk is empty). -/
theorem streak_grace_rule_witness :
    calculateActiveStreak 0 0 [⟨none, some "0xab", some "5", some "18", some "-86400", none⟩] = 1 :=
  (streak_grace_rule 0 0 [⟨none, some "0xab", some "5", some "18", some "-86400", none⟩]
    (by decide)).1.trans (by decide)

theorem contains_append_sub (days : List String) (K k : String)
    (h : days.contains k = true) : (days ++ [K]).contains k = true :=
  List.elem_iff.mpr (List.mem_append.mpr (Or.inl (List.elem_iff.mp h)))

/-- Agreement of the midnight-floored day key with the direct day key, for
times safely inside the `Date` range: flooring to local midnight does not
change the local calendar day. -/
theorem midnightKey_eq_rawDayKey (tz t : ℤ) (htz : |tz| ≤ 50400000)
    (ht : |t| ≤ 8600000000000000) :
    midnightKey tz t = rawDayKey tz t := by
  have habs : -8600000000000000 ≤ t ∧ t ≤ 8600000000000000 := abs_le.mp ht
  have habsz : -50400000 ≤ tz ∧ tz ≤ 50400000 := abs_le.mp htz
  have hclip : timeClipInt t = some t := by
    rw [timeClipInt, if_pos]
    rw [clipMax, abs_le]
    omega
  have hfd := Int.fdiv_add_fmod (t + tz) msPerDay
  have hfm0 : 0 ≤ (t + tz).fmod msPerDay := Int.fmod_nonneg' _ (by norm_num [msPerDay])
  have hfml : (t + tz).fmod msPerDay < msPerDay := Int.fmod_lt_of_pos _ (by norm_num [msPerDay])
  rw [msPerDay] at hfd hfm0 hfml
  have hmid : floorToMidnight tz t = t - (t + tz).fmod 86400000 := by
    rw [floorToMidnight, localDay, msPerDay]
    omega
  have hclip2 : timeClipInt (floorToMidnight tz t) = some (floorToMidnight tz t) := by
    rw [timeClipInt, if_pos]
    rw [hmid, clipMax, abs_le]
    omega
  have hday : localDay tz (floorToMidnight tz t) = localDay tz t := by
    rw [floorToMidnight, localDay, localDay, sub_add_cancel]
    exact Int.mul_fdiv_cancel _ (by norm_num [msPerDay])
  have hjs : jsSetMidnight tz t = timeClipInt (floorToMidnight tz t) := by
    rw [jsSetMidnight, hclip]
  have hciv : civilOfMs tz (floorToMidnight tz t) = civilOfMs tz t := by
    rw [civilOfMs, civilOfMs, hday]
  rw [midnightKey, rawDayKey, hjs, hclip2, hclip]
  simp [keyYMD, hciv]

/-- Claim C6: adding one transfer whose normalized timestamp falls on today's
calendar day never decreases the computed streak (for a physical clock
reading and timezone offset, which keep the walked days inside the `Date`
range). -/
theorem streak_monotone_today (tz now : ℤ) (txs : List Transfer) (tx : Transfer)
    (htz : |tz| ≤ 50400000) (hnow : |now| ≤ 8000000000000000)
    (hkey : txDayKey tz tx = some (midnightKey tz now)) :
    calculateActiveStreak tz now txs ≤ calculateActiveStreak tz now (txs ++ [tx]) := by
  have hkeys : (txs ++ [tx]).filterMap (txDayKey tz) =
      txs.filterMap (txDayKey tz) ++ [midnightKey tz now] := by
    rw [List.filterMap_append]
    simp [hkey]
  have hact : activeDaysOf tz (txs ++ [tx]) =
      if (activeDaysOf tz txs).contains (midnightKey tz now) then activeDaysOf tz txs
      else activeDaysOf tz txs ++ [midnightKey tz now] := by
    rw [activeDaysOf, hkeys, insertDedup_append_one]
    rfl
  have hne2 : ¬ (txs ++ [tx]).length = 0 := by simp
  by_cases h0 : txs.length = 0
  · rw [calculateActiveStreak, if_pos h0]
    exact Nat.zero_le _
  · rw [calculateActiveStreak_eq_active tz now txs h0,
      calculateActiveStreak_eq_active tz now (txs ++ [tx]) hne2]
    by_cases hK : (activeDaysOf tz txs).contains (midnightKey tz now) = true
    · rw [hact, if_pos hK]
    · rw [hact, if_neg hK]
      have hlen2 : (activeDaysOf tz txs ++ [midnightKey tz now]).length =
          (activeDaysOf tz txs).length + 1 := by simp
      rw [hlen2, streakLoopF]
      rw [if_pos (List.elem_iff.mpr (List.mem_append.mpr (Or.inr (by simp))))]
      rw [streakLoopF_shift tz _ (activeDaysOf tz txs).length (now - msPerDay) 1
        (by simp)]
      rcases hlen : (activeDaysOf tz txs).length with _ | f
      · rw [show activeDaysOf tz txs = [] from List.length_eq_zero.mp hlen]
        simp [streakLoopF]
      · rw [streakLoopF, if_neg hK, if_pos hlen.symm]
        by_cases hy : (activeDaysOf tz txs).contains (rawDayKey tz (now - msPerDay)) = true
        · rw [if_pos hy,
            streakLoopF_shift tz _ f (now - msPerDay - msPerDay) 1 (by omega)]
          have hmr : midnightKey tz (now - msPerDay) = rawDayKey tz (now - msPerDay) := by
            refine midnightKey_eq_rawDayKey tz (now - msPerDay) htz ?_
            have := abs_le.mp hnow
            rw [abs_le, msPerDay]
            omega
          have hstep : goWalk tz (activeDaysOf tz txs ++ [midnightKey tz now]) (f + 1)
              (now - msPerDay) =
              1 + goWalk tz (activeDaysOf tz txs ++ [midnightKey tz now]) f
                (now - msPerDay - msPerDay) := by
            rw [goWalk, if_pos]
            rw [hmr]
            exact contains_append_sub _ _ _ hy
          rw [hstep]
          have hmono : goWalk tz (activeDaysOf tz txs) f (now - msPerDay - msPerDay) ≤
              goWalk tz (activeDaysOf tz txs ++ [midnightKey tz now]) f
                (now - msPerDay - msPerDay) :=
            goWalk_mono tz _ _ (contains_append_sub _ _) f f _ (le_refl f)
          omega
        · rw [if_neg hy]
          exact Nat.zero_le _

unseal Rat.add Rat.mul Rat.sub Rat.inv in
/-- Claim C6, witness: adding a transfer dated today to a collection with one
transfer yesterday. -/
theorem streak_monotone_today_witness :
    calculateActiveStreak 0 0 [⟨none, some "0xab", some "5", some "18", some "-86400", none⟩] ≤
      calculateActiveStreak 0 0
        ([⟨none, some "0xab", some "5", some "18", some "-86400", none⟩] ++
          [⟨none, some "0xab", some "5", some "18", some "0", none⟩]) :=
  streak_monotone_today 0 0
    [⟨none, some "0xab", some "5", some "18", some "-86400", none⟩]
    ⟨none, some "0xab", some "5", some "18", some "0", none⟩
    (by decide) (by decide) (by decide)

/-! ## Claim C2: the daily aggregator -/

/-- The day key under which a transfer lands in `dayMap`, or `none` when the
transfer is skipped (NaN timestamp or older than the 10-day window). -/
def txWindowKey (tz now : ℤ) (tx : Transfer) : Option String :=
  match toMs tx.timeStamp with
  | none => none
  | some t => if olderThanWindow now t then none else some (keyMD tz (timeClipQ t))

/-- Total value received by the subject on bucket key `k`. -/
def recSumAt (tz now : ℤ) (addr k : String) (txs : List Transfer) : ℚ :=
  ((txs.filter (fun tx =>
    decide (txWindowKey tz now tx = some k) && addradarMatch tx.to_ addr)).map
      parseValue).sum

/-- Total value sent by the subject on bucket key `k` (a transfer that also
matches the recipient side is counted as received only, as in the source's
if/else). -/
def sentSumAt (tz now : ℤ) (addr k : String) (txs : List Transfer) : ℚ :=
  ((txs.filter (fun tx =>
    decide (txWindowKey tz now tx = some k) && !addradarMatch tx.to_ addr &&
      addradarMatch tx.from_ addr)).map parseValue).sum

/-- The month/day label of a civil date. -/
def civilMD (c : CivilDate) : String := intToStr c.month ++ "/" ++ intToStr c.day

theorem dayStep_eq_none (tz now : ℤ) (addr : String)
    (m : String → Option TransactionData) (tx : Transfer)
    (hms : toMs tx.timeStamp = none) : dayStep tz now addr m tx = m := by
  unfold dayStep
  rw [hms]

theorem dayStep_eq_some (tz now : ℤ) (addr : String)
    (m : String → Option TransactionData) (tx : Transfer) (t : ExtQ)
    (hms : toMs tx.timeStamp = some t) :
    dayStep tz now addr m tx =
      if olderThanWindow now t then m
      else
        fun k =>
          if k = keyMD tz (timeClipQ t) then
            some
              (let cur := (m (keyMD tz (timeClipQ t))).getD ⟨keyMD tz (timeClipQ t), 0, 0, 0⟩
              let v := parseValue tx
              let cur2 :=
                if addradarMatch tx.to_ addr then { cur with received := cur.received + v }
                else if addradarMatch tx.from_ addr then { cur with sent := cur.sent + v }
                else cur
              { cur2 with net := cur2.received - cur2.sent })
          else m k := by
  unfold dayStep
  rw [hms]

theorem txWindowKey_eq_none (tz now : ℤ) (tx : Transfer)
    (hms : toMs tx.timeStamp = none) : txWindowKey tz now tx = none := by
  unfold txWindowKey
  rw [hms]

theorem txWindowKey_eq_some (tz now : ℤ) (tx : Transfer) (t : ExtQ)
    (hms : toMs tx.timeStamp = some t) :
    txWindowKey tz now tx =
      if olderThanWindow now t then none else some (keyMD tz (timeClipQ t)) := by
  unfold txWindowKey
  rw [hms]

theorem dayStep_skip (tz now : ℤ) (addr : String) (m : String → Option TransactionData)
    (tx : Transfer) (h : txWindowKey tz now tx = none) :
    dayStep tz now addr m tx = m := by
  rcases hms : toMs tx.timeStamp with _ | t
  · exact dayStep_eq_none tz now addr m tx hms
  · rw [txWindowKey_eq_some tz now tx t hms] at h
    rcases hold : olderThanWindow now t with _ | _
    · rw [hold] at h
      simp at h
    · rw [dayStep_eq_some tz now addr m tx t hms, if_pos hold]

theorem dayMapOf_char (tz now : ℤ) (addr : String) (txs : List Transfer) :
    ∀ k, dayMapOf tz now txs addr k =
      if txs.countP (fun tx => decide (txWindowKey tz now tx = some k)) = 0 then none
      else some ⟨k, recSumAt tz now addr k txs, sentSumAt tz now addr k txs,
        recSumAt tz now addr k txs - sentSumAt tz now addr k txs⟩ := by
  induction txs using List.reverseRecOn with
  | nil => intro k; simp [dayMapOf, recSumAt, sentSumAt]
  | append_singleton txs tx ih =>
    intro k
    have hfold : dayMapOf tz now (txs ++ [tx]) addr =
        dayStep tz now addr (dayMapOf tz now txs addr) tx := by
      unfold dayMapOf
      rw [List.foldl_append]
      rfl
    have hcount : (txs ++ [tx]).countP (fun tx => decide (txWindowKey tz now tx = some k)) =
        txs.countP (fun tx => decide (txWindowKey tz now tx = some k)) +
          (if txWindowKey tz now tx = some k then 1 else 0) := by
      rw [List.countP_append]
      by_cases h : txWindowKey tz now tx = some k <;> simp [List.countP_cons, h]
    have hrec : recSumAt tz now addr k (txs ++ [tx]) = recSumAt tz now addr k txs +
        (if txWindowKey tz now tx = some k ∧ addradarMatch tx.to_ addr = true then
          parseValue tx else 0) := by
      unfold recSumAt
      rw [List.filter_append, List.map_append, List.sum_append]
      by_cases h1 : txWindowKey tz now tx = some k <;>
        by_cases h2 : addradarMatch tx.to_ addr = true <;>
          simp [List.filter, h1, h2]
    have hsent : sentSumAt tz now addr k (txs ++ [tx]) = sentSumAt tz now addr k txs +
        (if txWindowKey tz now tx = some k ∧ ¬ addradarMatch tx.to_ addr = true ∧
            addradarMatch tx.from_ addr = true then parseValue tx else 0) := by
      unfold sentSumAt
      rw [List.filter_append, List.map_append, List.sum_append]
      by_cases h1 : txWindowKey tz now tx = some k <;>
        by_cases h2 : addradarMatch tx.to_ addr = true <;>
          by_cases h3 : addradarMatch tx.from_ addr = true <;>
            simp [List.filter, h1, h2, h3]
    rw [hfold]
    rcases hwk : txWindowKey tz now tx with _ | k0
    · rw [dayStep_skip tz now addr _ tx hwk]
      rw [ih k, hcount, hrec, hsent, hwk]
      simp
    · have hm : ∃ t, toMs tx.timeStamp = some t ∧ olderThanWindow now t = false ∧
          keyMD tz (timeClipQ t) = k0 := by
        rcases hms : toMs tx.timeStamp with _ | t
        · rw [txWindowKey_eq_none tz now tx hms] at hwk
          simp at hwk
        · rw [txWindowKey_eq_some tz now tx t hms] at hwk
          rcases hold : olderThanWindow now t with _ | _
          · rw [hold] at hwk
            simp at hwk
            exact ⟨t, rfl, hold, hwk⟩
          · rw [hold] at hwk
            simp at hwk
      obtain ⟨t, hms, hold, hkey⟩ := hm
      have hstep := dayStep_eq_some tz now addr (dayMapOf tz now txs addr) tx t hms
      rw [if_neg (by rw [hold]; exact Bool.false_ne_true), hkey] at hstep
      rw [hstep]
      by_cases hkk : k = k0
      · subst hkk
        have hc1 : (if txWindowKey tz now tx = some k then (1 : ℕ) else 0) = 1 := by
          simp [hwk]
        have hc2 : (if txWindowKey tz now tx = some k ∧ addradarMatch tx.to_ addr = true
            then parseValue tx else 0) =
            (if addradarMatch tx.to_ addr = true then parseValue tx else 0) := by
          simp [hwk]
        have hc3 : (if txWindowKey tz now tx = some k ∧ ¬ addradarMatch tx.to_ addr = true ∧
            addradarMatch tx.from_ addr = true then parseValue tx else 0) =
            (if ¬ addradarMatch tx.to_ addr = true ∧ addradarMatch tx.from_ addr = true
              then parseValue tx else 0) := by
          simp [hwk]
        simp only [if_pos rfl]
        rw [hcount, hrec, hsent, hc1, hc2, hc3, ih k]
        by_cases hz : txs.countP (fun tx => decide (txWindowKey tz now tx = some k)) = 0
        · have hrec0 : recSumAt tz now addr k txs = 0 := by
            unfold recSumAt
            rw [List.filter_eq_nil_iff.mpr, List.map_nil, List.sum_nil]
            intro a ha hc
            simp only [Bool.and_eq_true, decide_eq_true_eq] at hc
            exact absurd (List.countP_eq_zero.mp hz a ha) (by simp [hc.1])
          have hsent0 : sentSumAt tz now addr k txs = 0 := by
            unfold sentSumAt
            rw [List.filter_eq_nil_iff.mpr, List.map_nil, List.sum_nil]
            intro a ha hc
            simp only [Bool.and_eq_true, decide_eq_true_eq] at hc
            exact absurd (List.countP_eq_zero.mp hz a ha) (by simp [hc.1.1])
          have hcnz : ¬ (List.countP (fun tx => decide (txWindowKey tz now tx = some k))
              txs + 1 = 0) := by omega
          rw [if_pos hz, hrec0, hsent0, if_neg hcnz]
          by_cases h2 : addradarMatch tx.to_ addr = true <;>
            by_cases h3 : addradarMatch tx.from_ addr = true <;>
              simp [h2, h3]
        · have hcnz : ¬ (List.countP (fun tx => decide (txWindowKey tz now tx = some k))
              txs + 1 = 0) := by omega
          rw [if_neg hz, if_neg hcnz]
          by_cases h2 : addradarMatch tx.to_ addr = true <;>
            by_cases h3 : addradarMatch tx.from_ addr = true <;>
              simp [h2, h3]
      · have hne : txWindowKey tz now tx = some k → False := by
          rw [hwk]
          intro hc
          exact hkk (Option.some.inj hc).symm
        have hd1 : (if txWindowKey tz now tx = some k then (1 : ℕ) else 0) = 0 := by
          rw [if_neg hne]
        have hd2 : (if txWindowKey tz now tx = some k ∧ addradarMatch tx.to_ addr = true
            then parseValue tx else 0) = 0 := by
          rw [if_neg (fun hc => hne hc.1)]
        have hd3 : (if txWindowKey tz now tx = some k ∧ ¬ addradarMatch tx.to_ addr = true ∧
            addradarMatch tx.from_ addr = true then parseValue tx else 0) = 0 := by
          rw [if_neg (fun hc => hne hc.1)]
        simp only [if_neg hkk]
        rw [ih k, hcount, hrec, hsent, hd1, hd2, hd3]
        simp

theorem windowKey_civil (tz now : ℤ) (i : ℤ) (htz : |tz| ≤ 50400000)
    (hnow : |now| ≤ 8000000000000000) (hi : 0 ≤ i) (hi10 : i ≤ 9) :
    windowKey tz now i = civilMD (civilFromDays (localDay tz now - i)) := by
  have habs := abs_le.mp hnow
  have habsz := abs_le.mp htz
  have hclip : timeClipInt (now - i * msPerDay) = some (now - i * msPerDay) := by
    rw [timeClipInt, if_pos]
    rw [clipMax, abs_le, msPerDay]
    constructor <;> nlinarith
  have hfde : ∀ x : ℤ, x.fdiv msPerDay = x / msPerDay := fun x =>
    Int.fdiv_eq_ediv x (by norm_num [msPerDay])
  have hday : localDay tz (now - i * msPerDay) = localDay tz now - i := by
    rw [localDay, localDay, hfde, hfde]
    have harith : now - i * msPerDay + tz = now + tz + (-i) * msPerDay := by ring
    rw [harith, Int.add_mul_ediv_right _ _ (by norm_num [msPerDay])]
    ring
  rw [windowKey, hclip, keyMD, civilOfMs, hday]
  rfl

/-- Claim C2: the daily aggregator returns exactly 10 buckets; bucket `j`
carries the month/day label of the calendar day `9 - j` days before today
(so the buckets run chronologically, 9 days ago first, today last); every
bucket satisfies `net = received - sent`; and a window day on which no valid
in-window transfer involves the subject is zero-filled. -/
theorem groupTransactionsByDay_spec (tz now : ℤ) (transfers : List Transfer)
    (addr : String) (htz : |tz| ≤ 50400000) (hnow : |now| ≤ 8000000000000000) :
    (groupTransactionsByDay tz now transfers addr).length = 10 ∧
    (∀ j : ℕ, ∀ hj : j < (groupTransactionsByDay tz now transfers addr).length,
      ((groupTransactionsByDay tz now transfers addr).get ⟨j, hj⟩).day =
        civilMD (civilFromDays (localDay tz now - (9 - (j : ℤ))))) ∧
    (∀ b ∈ groupTransactionsByDay tz now transfers addr,
      b.net = b.received - b.sent) ∧
    (∀ j : ℕ, ∀ hj : j < (groupTransactionsByDay tz now transfers addr).length,
      (¬ ∃ tx ∈ transfers, txWindowKey tz now tx = some (windowKey tz now (9 - (j : ℤ))) ∧
          (addradarMatch tx.to_ addr = true ∨ addradarMatch tx.from_ addr = true)) →
      (groupTransactionsByDay tz now transfers addr).get ⟨j, hj⟩ =
        ⟨windowKey tz now (9 - (j : ℤ)), 0, 0, 0⟩) := by
  have hlen : (groupTransactionsByDay tz now transfers addr).length = 10 := by
    simp [groupTransactionsByDay]
  have hget : ∀ j : ℕ, ∀ hj : j < (groupTransactionsByDay tz now transfers addr).length,
      (groupTransactionsByDay tz now transfers addr).get ⟨j, hj⟩ =
        (dayMapOf tz now transfers addr (windowKey tz now (9 - (j : ℤ)))).getD
          ⟨windowKey tz now (9 - (j : ℤ)), 0, 0, 0⟩ := by
    intro j hj
    rw [List.get_eq_getElem]
    simp only [groupTransactionsByDay, List.getElem_map, List.getElem_range]
  have hnet : ∀ k, ((dayMapOf tz now transfers addr k).getD ⟨k, 0, 0, 0⟩).net =
      ((dayMapOf tz now transfers addr k).getD ⟨k, 0, 0, 0⟩).received -
        ((dayMapOf tz now transfers addr k).getD ⟨k, 0, 0, 0⟩).sent := by
    intro k
    rw [dayMapOf_char]
    by_cases hz : transfers.countP
        (fun tx => decide (txWindowKey tz now tx = some k)) = 0
    · rw [if_pos hz, Option.getD_none]
      norm_num
    · rw [if_neg hz, Option.getD_some]
  refine ⟨hlen, ?_, ?_, ?_⟩
  · intro j hj
    have hj10 : j < 10 := by rw [hlen] at hj; exact hj
    rw [hget j hj]
    have hkey : windowKey tz now (9 - (j : ℤ)) =
        civilMD (civilFromDays (localDay tz now - (9 - (j : ℤ)))) :=
      windowKey_civil tz now (9 - (j : ℤ)) htz hnow (by omega) (by omega)
    rcases hchar : dayMapOf tz now transfers addr (windowKey tz now (9 - (j : ℤ))) with _ | b
    · rw [Option.getD_none, hkey]
    · rw [Option.getD_some]
      rw [dayMapOf_char tz now addr transfers (windowKey tz now (9 - (j : ℤ)))] at hchar
      by_cases hz : transfers.countP
          (fun tx => decide (txWindowKey tz now tx =
            some (windowKey tz now (9 - (j : ℤ))))) = 0
      · rw [if_pos hz] at hchar
        cases hchar
      · rw [if_neg hz] at hchar
        cases Option.some.inj hchar
        exact hkey
  · intro b hb
    obtain ⟨⟨j, hjlt⟩, hjb⟩ := List.mem_iff_get.mp hb
    rw [← hjb, hget j hjlt]
    exact hnet _
  · intro j hj hnone
    rw [hget j hj]
    rw [dayMapOf_char tz now addr transfers (windowKey tz now (9 - (j : ℤ)))]
    by_cases hz : transfers.countP
        (fun tx => decide (txWindowKey tz now tx =
          some (windowKey tz now (9 - (j : ℤ))))) = 0
    · rw [if_pos hz, Option.getD_none]
    · rw [if_neg hz, Option.getD_some]
      have hrec0 : recSumAt tz now addr (windowKey tz now (9 - (j : ℤ))) transfers = 0 := by
        unfold recSumAt
        rw [List.filter_eq_nil_iff.mpr, List.map_nil, List.sum_nil]
        intro a ha hc
        simp only [Bool.and_eq_true, decide_eq_true_eq] at hc
        exact hnone ⟨a, ha, hc.1, Or.inl hc.2⟩
      have hsent0 : sentSumAt tz now addr (windowKey tz now (9 - (j : ℤ))) transfers = 0 := by
        unfold sentSumAt
        rw [List.filter_eq_nil_iff.mpr, List.map_nil, List.sum_nil]
        intro a ha hc
        simp only [Bool.and_eq_true, decide_eq_true_eq] at hc
        exact hnone ⟨a, ha, hc.1.1, Or.inr hc.2⟩
      rw [hrec0, hsent0]
      norm_num

/-- Claim C2, witness: the empty collection at a concrete clock still yields
10 chronologically labelled zero-filled buckets. -/
theorem groupTransactionsByDay_spec_witness :
    (groupTransactionsByDay 0 0 [] "a").length = 10 ∧
    (∀ j : ℕ, ∀ hj : j < (groupTransactionsByDay 0 0 [] "a").length,
      ((groupTransactionsByDay 0 0 [] "a").get ⟨j, hj⟩).day =
        civilMD (civilFromDays (localDay 0 0 - (9 - (j : ℤ))))) ∧
    (∀ b ∈ groupTransactionsByDay 0 0 [] "a", b.net = b.received - b.sent) ∧
    (∀ j : ℕ, ∀ hj : j < (groupTransactionsByDay 0 0 [] "a").length,
      (¬ ∃ tx ∈ ([] : List Transfer),
          txWindowKey 0 0 tx = some (windowKey 0 0 (9 - (j : ℤ))) ∧
          (addradarMatch tx.to_ "a" = true ∨ addradarMatch tx.from_ "a" = true)) →
      (groupTransactionsByDay 0 0 [] "a").get ⟨j, hj⟩ =
        ⟨windowKey 0 0 (9 - (j : ℤ)), 0, 0, 0⟩) :=
  groupTransactionsByDay_spec 0 0 [] "a" (by decide) (by decide)

/-! ## Claims C3, C1: the balance reconstructor -/

theorem ExtQ.ble_trans {a b c : ExtQ} (hab : ExtQ.ble a b = true)
    (hbc : ExtQ.ble b c = true) : ExtQ.ble a c = true := by
  cases a <;> cases b <;> cases c <;> simp_all [ExtQ.ble] <;> exact le_trans hab hbc

theorem ExtQ.ble_total (a b : ExtQ) : ExtQ.ble a b = true ∨ ExtQ.ble b a = true := by
  cases a <;> cases b <;> simp [ExtQ.ble] <;> exact le_total _ _

theorem ExtQ.blt_of_blt_of_ble {t a b : ExtQ} (h1 : ExtQ.blt t a = true)
    (h2 : ExtQ.ble a b = true) : ExtQ.blt t b = true := by
  rw [ExtQ.blt] at h1 ⊢
  simp only [Bool.not_eq_true'] at h1 ⊢
  cases hbt : ExtQ.ble b t
  · rfl
  · exact absurd (ExtQ.ble_trans h2 hbt) (by rw [h1]; exact Bool.false_ne_true)

theorem ExtQ.blt_false_of_ble {t a b : ExtQ} (h1 : ExtQ.blt t b = false)
    (h2 : ExtQ.ble a b = true) : ExtQ.blt t a = false := by
  cases hta : ExtQ.blt t a
  · rfl
  · rw [ExtQ.blt_of_blt_of_ble hta h2] at h1
    cases h1

instance : IsTrans (ExtQ × ℚ) timeLe :=
  ⟨fun _ _ _ hab hbc => ExtQ.ble_trans hab hbc⟩

instance : IsTotal (ExtQ × ℚ) timeLe :=
  ⟨fun a b => ExtQ.ble_total a.1 b.1⟩

/-- Invariant-carrying correctness of the binary-search loop: started with
enough fuel and `hi = ans - 1`, it returns the least index whose timestamp is
strictly greater than `t` (or the length when there is none), provided the
timestamps are sorted. -/
theorem bsLoopF_spec (times : List ExtQ) (t : ℚ)
    (hsort : ∀ i j : ℕ, i ≤ j → j < times.length →
      ExtQ.ble (times.getD i (.fin 0)) (times.getD j (.fin 0)) = true) :
    ∀ (fuel : ℕ) (lo : ℕ) (hi : ℤ) (ans : ℕ),
      (hi + 1 - (lo : ℤ)).toNat ≤ fuel →
      hi = (ans : ℤ) - 1 →
      ans ≤ times.length →
      lo ≤ ans →
      (∀ j : ℕ, j < lo → ExtQ.blt (.fin t) (times.getD j (.fin 0)) = false) →
      (∀ j : ℕ, ans ≤ j → j < times.length →
        ExtQ.blt (.fin t) (times.getD j (.fin 0)) = true) →
      bsLoopF times t fuel lo hi ans ≤ times.length ∧
        (∀ j : ℕ, j < bsLoopF times t fuel lo hi ans →
          ExtQ.blt (.fin t) (times.getD j (.fin 0)) = false) ∧
        (∀ j : ℕ, bsLoopF times t fuel lo hi ans ≤ j → j < times.length →
          ExtQ.blt (.fin t) (times.getD j (.fin 0)) = true) := by
  intro fuel
  induction fuel with
  | zero =>
    intro lo hi ans hfuel hhi hans hloans hlow hhigh
    have hlohi : ¬ ((lo : ℤ) ≤ hi) := by omega
    rw [bsLoopF]
    refine ⟨hans, fun j hj => hlow j ?_, hhigh⟩
    omega
  | succ fuel ih =>
    intro lo hi ans hfuel hhi hans hloans hlow hhigh
    rw [bsLoopF]
    by_cases hlohi : (lo : ℤ) ≤ hi
    · rw [if_pos hlohi]
      have hhi0 : 0 ≤ hi := le_trans (by positivity) hlohi
      have hmid1 : lo ≤ (lo + hi.toNat) / 2 := by omega
      have hmid2 : ((lo + hi.toNat) / 2 : ℤ) ≤ hi := by omega
      have hmidans : (lo + hi.toNat) / 2 < ans := by omega
      have hmidlen : (lo + hi.toNat) / 2 < times.length := by omega
      by_cases hcmp : ExtQ.blt (.fin t) (times.getD ((lo + hi.toNat) / 2) (.fin 0)) = true
      · rw [if_pos hcmp]
        refine ih lo ((((lo + hi.toNat) / 2 : ℕ) : ℤ) - 1) ((lo + hi.toNat) / 2)
          (by omega) (by omega) (by omega) (by omega) hlow ?_
        intro j hj hjlen
        exact ExtQ.blt_of_blt_of_ble hcmp (hsort _ j hj hjlen)
      · rw [if_neg hcmp]
        refine ih ((lo + hi.toNat) / 2 + 1) hi ans (by omega) hhi hans (by omega) ?_ hhigh
        intro j hj
        by_cases hjlo : j < lo
        · exact hlow j hjlo
        · have hjm : j ≤ (lo + hi.toNat) / 2 := by omega
          exact ExtQ.blt_false_of_ble (Bool.not_eq_true _ ▸ hcmp)
            (hsort j _ hjm hmidlen)
    · rw [if_neg hlohi]
      refine ⟨hans, fun j hj => hlow j ?_, hhigh⟩
      omega

theorem bsLoop_spec (times : List ExtQ) (t : ℚ)
    (hsort : ∀ i j : ℕ, i ≤ j → j < times.length →
      ExtQ.ble (times.getD i (.fin 0)) (times.getD j (.fin 0)) = true) :
    bsLoop times t ≤ times.length ∧
      (∀ j : ℕ, j < bsLoop times t →
        ExtQ.blt (.fin t) (times.getD j (.fin 0)) = false) ∧
      (∀ j : ℕ, bsLoop times t ≤ j → j < times.length →
        ExtQ.blt (.fin t) (times.getD j (.fin 0)) = true) := by
  rw [bsLoop]
  exact bsLoopF_spec times t hsort times.length 0 ((times.length : ℤ) - 1)
    times.length (by omega) (by omega) (le_refl _) (Nat.zero_le _)
    (by omega) (fun j hj hjlen => absurd hjlen (by omega))

theorem suffixSums_headD : ∀ l : List ℚ, (suffixSums l).headD 0 = l.sum
  | [] => rfl
  | d :: ds => by
    rw [suffixSums, List.headD_cons, suffixSums_headD ds, List.sum_cons]

theorem suffixSums_getD (l : List ℚ) : ∀ i : ℕ, (suffixSums l).getD i 0 = (l.drop i).sum := by
  induction l with
  | nil => intro i; simp [suffixSums]
  | cons d ds ih =>
    intro i
    cases i with
    | zero =>
      rw [suffixSums, List.getD_cons_zero, suffixSums_headD, List.drop_zero, List.sum_cons]
    | succ i =>
      rw [suffixSums, List.getD_cons_succ, ih i, List.drop_succ_cons]

theorem filter_eq_drop_of_boundary (L : List (ExtQ × ℚ)) (t : ℚ) (R : ℕ)
    (hR : R ≤ L.length)
    (hlow : ∀ j : ℕ, ∀ hj : j < L.length, j < R →
      ExtQ.blt (.fin t) (L.get ⟨j, hj⟩).1 = false)
    (hhigh : ∀ j : ℕ, ∀ hj : j < L.length, R ≤ j →
      ExtQ.blt (.fin t) (L.get ⟨j, hj⟩).1 = true) :
    L.filter (fun e => ExtQ.blt (.fin t) e.1) = L.drop R := by
  have hsplit := List.take_append_drop R L
  have h1 : (L.take R).filter (fun e => ExtQ.blt (.fin t) e.1) = [] := by
    rw [List.filter_eq_nil_iff]
    intro a ha
    obtain ⟨i, hi, hia⟩ := List.mem_iff_getElem.mp ha
    have hiR : i < R := by
      have := List.length_take R L
      omega
    have hiL : i < L.length := by omega
    have hgetTake : (L.take R)[i] = L[i] := by rw [List.getElem_take]
    rw [← hia, hgetTake]
    have := hlow i hiL hiR
    rw [List.get_eq_getElem] at this
    simp [this]
  have h2 : (L.drop R).filter (fun e => ExtQ.blt (.fin t) e.1) = L.drop R := by
    rw [List.filter_eq_self]
    intro a ha
    obtain ⟨i, hi, hia⟩ := List.mem_iff_getElem.mp ha
    have hiL : R + i < L.length := by
      have := List.length_drop R L
      omega
    have hgetDrop : (L.drop R)[i] = L[R + i] := List.getElem_drop L
    rw [← hia, hgetDrop]
    have := hhigh (R + i) hiL (by omega)
    rw [List.get_eq_getElem] at this
    exact this
  calc L.filter (fun e => ExtQ.blt (.fin t) e.1)
      = ((L.take R) ++ (L.drop R)).filter (fun e => ExtQ.blt (.fin t) e.1) := by
        rw [hsplit]
    _ = L.drop R := by rw [List.filter_append, h1, h2, List.nil_append]

theorem ExtQ.ble_refl (a : ExtQ) : ExtQ.ble a a = true := by
  cases a <;> simp [ExtQ.ble]

theorem sortedEnriched_sorted (transfers : List Transfer) (address : String) :
    ∀ i j : ℕ, i ≤ j → j < ((sortedEnriched transfers address).map Prod.fst).length →
      ExtQ.ble (((sortedEnriched transfers address).map Prod.fst).getD i (.fin 0))
        (((sortedEnriched transfers address).map Prod.fst).getD j (.fin 0)) = true := by
  intro i j hij hj
  have hjL : j < (sortedEnriched transfers address).length := by
    rw [List.length_map] at hj
    exact hj
  have hiL : i < (sortedEnriched transfers address).length := by omega
  have hgd : ∀ m : ℕ, ∀ hm : m < (sortedEnriched transfers address).length,
      ((sortedEnriched transfers address).map Prod.fst).getD m (.fin 0) =
        ((sortedEnriched transfers address).get ⟨m, hm⟩).1 := by
    intro m hm
    rw [List.getD_eq_getElem _ _ (by rw [List.length_map]; exact hm), List.getElem_map,
      List.get_eq_getElem]
  rw [hgd i hiL, hgd j hjL]
  by_cases hii : i = j
  · subst hii
    exact ExtQ.ble_refl _
  · have hpair : List.Pairwise timeLe (sortedEnriched transfers address) :=
      List.sorted_insertionSort timeLe _
    have := List.pairwise_iff_getElem.mp hpair i j hiL hjL (lt_of_le_of_ne hij hii)
    simpa [List.get_eq_getElem] using this

theorem sumDeltasAfterOf_eq_filter_sum (transfers : List Transfer) (address : String) (t : ℚ) :
    sumDeltasAfterOf transfers address t =
      (((enrichValid transfers address).filter
        (fun e => ExtQ.blt (.fin t) e.1)).map Prod.snd).sum := by
  obtain ⟨hRlen, hRlow, hRhigh⟩ :=
    bsLoop_spec ((sortedEnriched transfers address).map Prod.fst) t
      (sortedEnriched_sorted transfers address)
  rw [List.length_map] at hRlen
  have hgd : ∀ m : ℕ, ∀ hm : m < (sortedEnriched transfers address).length,
      ((sortedEnriched transfers address).map Prod.fst).getD m (.fin 0) =
        ((sortedEnriched transfers address).get ⟨m, hm⟩).1 := by
    intro m hm
    rw [List.getD_eq_getElem _ _ (by rw [List.length_map]; exact hm), List.getElem_map,
      List.get_eq_getElem]
  have hfd : (sortedEnriched transfers address).filter (fun e => ExtQ.blt (.fin t) e.1) =
      (sortedEnriched transfers address).drop
        (bsLoop ((sortedEnriched transfers address).map Prod.fst) t) := by
    refine filter_eq_drop_of_boundary _ t _ hRlen ?_ ?_
    · intro j hj hjR
      rw [← hgd j hj]
      exact hRlow j hjR
    · intro j hj hjR
      rw [← hgd j hj]
      exact hRhigh j hjR (by rw [List.length_map]; exact hj)
  have hmain : sumDeltasAfterOf transfers address t =
      (((sortedEnriched transfers address).drop
        (bsLoop ((sortedEnriched transfers address).map Prod.fst) t)).map Prod.snd).sum := by
    show sumDeltasAfter ((sortedEnriched transfers address).map Prod.fst)
      (suffixSums ((sortedEnriched transfers address).map Prod.snd)) t = _
    rw [sumDeltasAfter]
    by_cases hcase : ((sortedEnriched transfers address).map Prod.fst).length ≤
        bsLoop ((sortedEnriched transfers address).map Prod.fst) t
    · rw [if_pos hcase]
      rw [List.length_map] at hcase
      rw [List.drop_eq_nil_of_le hcase, List.map_nil, List.sum_nil]
    · rw [if_neg hcase, suffixSums_getD, List.map_drop]
  have hperm : (sortedEnriched transfers address).Perm (enrichValid transfers address) :=
    List.perm_insertionSort timeLe _
  have hsum : (((sortedEnriched transfers address).filter
        (fun e => ExtQ.blt (.fin t) e.1)).map Prod.snd).sum =
      (((enrichValid transfers address).filter
        (fun e => ExtQ.blt (.fin t) e.1)).map Prod.snd).sum :=
    ((hperm.filter (fun e => ExtQ.blt (.fin t) e.1)).map Prod.snd).sum_eq
  rw [hmain, ← hfd, hsum]

/-- Claim C3: `sumDeltasAfter(t)` — binary search over the sorted timestamps
for the first index past `t`, then one suffix-sum lookup — equals the sum of
the signed deltas of all valid-timestamp transfers whose normalized timestamp
is strictly greater than `t`, and is 0 when no such transfer exists. -/
theorem sumDeltasAfterOf_spec (transfers : List Transfer) (address : String) (t : ℚ) :
    sumDeltasAfterOf transfers address t =
      (((enrichValid transfers address).filter
        (fun e => ExtQ.blt (.fin t) e.1)).map Prod.snd).sum ∧
    ((enrichValid transfers address).filter (fun e => ExtQ.blt (.fin t) e.1) = [] →
      sumDeltasAfterOf transfers address t = 0) := by
  have h := sumDeltasAfterOf_eq_filter_sum transfers address t
  refine ⟨h, fun h0 => ?_⟩
  rw [h, h0, List.map_nil, List.sum_nil]

unseal Rat.add Rat.mul Rat.sub Rat.inv in
/-- Claim C3, witness: two transfers, a query time after both; the
binary-search result is the empty suffix, so the sum is 0. -/
theorem sumDeltasAfterOf_spec_witness :
    sumDeltasAfterOf [⟨none, some "a", some "5", some "1", some "100", none⟩,
        ⟨some "a", none, some "3", some "1", some "200", none⟩] "A" 250000 = 0 :=
  (sumDeltasAfterOf_spec [⟨none, some "a", some "5", some "1", some "100", none⟩,
      ⟨some "a", none, some "3", some "1", some "200", none⟩] "A" 250000).2 (by decide)

theorem localDay_endOfDay (tz m : ℤ) :
    localDay tz (floorToMidnight tz m + 86399999) = localDay tz m := by
  rw [localDay, floorToMidnight]
  have harg : localDay tz m * msPerDay - tz + 86399999 + tz =
      86399999 + localDay tz m * msPerDay := by ring
  rw [harg, Int.fdiv_eq_ediv _ (by norm_num [msPerDay]),
    Int.add_mul_ediv_right _ _ (by norm_num [msPerDay])]
  have h0 : (86399999 : ℤ) / msPerDay = 0 := by rw [msPerDay]; decide
  rw [h0, zero_add, localDay, Int.fdiv_eq_ediv _ (by norm_num [msPerDay])]

theorem jsSetEndOfDay_clip (tz m : ℤ) (hm : |m| ≤ 8100000000000000) :
    jsSetEndOfDay tz m = some (floorToMidnight tz m + 86399999) := by
  have habs := abs_le.mp hm
  have hclip1 : timeClipInt m = some m := by
    rw [timeClipInt, if_pos]
    rw [clipMax, abs_le]
    omega
  unfold jsSetEndOfDay
  rw [hclip1]
  show timeClipInt (floorToMidnight tz m + 86399999) = some (floorToMidnight tz m + 86399999)
  have hfd := Int.fdiv_add_fmod (m + tz) msPerDay
  have hfm0 : 0 ≤ (m + tz).fmod msPerDay := Int.fmod_nonneg' _ (by norm_num [msPerDay])
  have hfml : (m + tz).fmod msPerDay < msPerDay := Int.fmod_lt_of_pos _ (by norm_num [msPerDay])
  rw [msPerDay] at hfd hfm0 hfml
  have hfloor : floorToMidnight tz m = m - (m + tz).fmod 86400000 := by
    rw [floorToMidnight, localDay, msPerDay]
    omega
  rw [timeClipInt, if_pos]
  rw [hfloor, clipMax, abs_le]
  omega

theorem endOfDay_key (tz now i : ℤ) (htz : |tz| ≤ 50400000)
    (hnow : |now| ≤ 8000000000000000) (hi : 0 ≤ i) (hi10 : i ≤ 9) :
    keyMD tz (jsSetEndOfDay tz (now - i * msPerDay)) =
      civilMD (civilFromDays (localDay tz now - i)) := by
  have habs := abs_le.mp hnow
  have hm : |now - i * msPerDay| ≤ 8100000000000000 := by
    rw [abs_le, msPerDay]
    constructor <;> nlinarith
  have hfde : ∀ x : ℤ, x.fdiv msPerDay = x / msPerDay := fun x =>
    Int.fdiv_eq_ediv x (by norm_num [msPerDay])
  have hday : localDay tz (now - i * msPerDay) = localDay tz now - i := by
    rw [localDay, localDay, hfde, hfde]
    have harith : now - i * msPerDay + tz = now + tz + (-i) * msPerDay := by ring
    rw [harith, Int.add_mul_ediv_right _ _ (by norm_num [msPerDay])]
    ring
  rw [jsSetEndOfDay_clip tz _ hm, keyMD, civilOfMs, localDay_endOfDay, hday, civilMD]

theorem balancePoint_eq (tz now : ℤ) (transfers : List Transfer) (address : String)
    (cb : ℚ) (i : ℤ) (tEnd : ℤ)
    (h : jsSetEndOfDay tz (now - i * msPerDay) = some tEnd) :
    balancePoint tz now transfers address cb i =
      ⟨keyMD tz (some tEnd),
        max 0 (cb - sumDeltasAfterOf transfers address (tEnd : ℚ))⟩ := by
  unfold balancePoint
  rw [h]

unseal Rat.add Rat.mul Rat.sub Rat.inv in
/-- Claim C1, counterexample: with `currentBalance = -1` and no transfers at all,
the clamp `Math.max(0, ...)` forces every point to 0, so the final (most
recent) point's balance is 0, not the supplied `currentBalance`. -/
theorem generateBalanceChart_anchor_counterexample :
    ((generateBalanceChartFromCurrent 0 0 [] "a" (-1)).getD 9 ⟨"", 0⟩).balance ≠ -1 := by
  decide

/-- Claim C1 (amended): under a fixed-offset clock with `|tz| ≤ 14h` and
`|now| ≤ 8e15` ms, the balance reconstructor always returns exactly 10 points,
labelled oldest-to-newest with the civil dates of the 10 local days ending
today, each with balance ≥ 0; and the final point's balance equals the supplied
`currentBalance` provided that balance is nonnegative and no valid-timestamp
transfer of the subject lies strictly after the end of today's local day
(without these conditions the clamp, or deltas dated after today, break the
anchor). -/
theorem generateBalanceChart_amended (tz now : ℤ) (transfers : List Transfer)
    (address : String) (cb : ℚ)
    (htz : |tz| ≤ 50400000) (hnow : |now| ≤ 8000000000000000) :
    (generateBalanceChartFromCurrent tz now transfers address cb).length = 10 ∧
    (∀ p ∈ generateBalanceChartFromCurrent tz now transfers address cb, 0 ≤ p.balance) ∧
    (∀ j : ℕ, j < 10 →
      ((generateBalanceChartFromCurrent tz now transfers address cb).getD j ⟨"", 0⟩).day =
        civilMD (civilFromDays (localDay tz now - (9 - (j : ℤ))))) ∧
    (0 ≤ cb →
      (∀ e ∈ enrichValid transfers address,
        ExtQ.ble e.1 (.fin ((floorToMidnight tz now + 86399999 : ℤ) : ℚ)) = true) →
      ((generateBalanceChartFromCurrent tz now transfers address cb).getD 9
        ⟨"", 0⟩).balance = cb) := by
  have hlen : (generateBalanceChartFromCurrent tz now transfers address cb).length = 10 := by
    rw [generateBalanceChartFromCurrent, List.length_map, List.length_range]
  have hget : ∀ j : ℕ, j < 10 →
      (generateBalanceChartFromCurrent tz now transfers address cb).getD j ⟨"", 0⟩ =
        balancePoint tz now transfers address cb (9 - (j : ℤ)) := by
    intro j hj
    rw [List.getD_eq_getElem _ _ (by rw [hlen]; exact hj)]
    simp only [generateBalanceChartFromCurrent, List.getElem_map, List.getElem_range]
  refine ⟨hlen, ?_, ?_, ?_⟩
  · intro p hp
    rw [generateBalanceChartFromCurrent] at hp
    obtain ⟨j, hj, rfl⟩ := List.mem_map.mp hp
    exact le_max_left 0 _
  · intro j hj
    rw [hget j hj]
    show keyMD tz (jsSetEndOfDay tz (now - (9 - (j : ℤ)) * msPerDay)) =
      civilMD (civilFromDays (localDay tz now - (9 - (j : ℤ))))
    exact endOfDay_key tz now (9 - (j : ℤ)) htz hnow (by omega) (by omega)
  · intro hcb hle
    rw [hget 9 (by omega)]
    have h90 : (9 : ℤ) - ((9 : ℕ) : ℤ) = 0 := by norm_num
    rw [h90]
    have hclip : jsSetEndOfDay tz (now - 0 * msPerDay) =
        some (floorToMidnight tz now + 86399999) := by
      have hmm : now - 0 * msPerDay = now := by ring
      rw [hmm]
      exact jsSetEndOfDay_clip tz now (by rw [abs_le] at hnow ⊢; omega)
    have hfl : floorToMidnight tz (now - 0 * msPerDay) = floorToMidnight tz now := by
      have hmm : now - 0 * msPerDay = now := by ring
      rw [hmm]
    rw [balancePoint_eq tz now transfers address cb 0 _ hclip]
    show max 0 (cb - sumDeltasAfterOf transfers address
      ((floorToMidnight tz now + 86399999 : ℤ) : ℚ)) = cb
    have hzero : sumDeltasAfterOf transfers address
        ((floorToMidnight tz now + 86399999 : ℤ) : ℚ) = 0 := by
      rw [sumDeltasAfterOf_eq_filter_sum]
      have hnil : (enrichValid transfers address).filter
          (fun e => ExtQ.blt (.fin ((floorToMidnight tz now + 86399999 : ℤ) : ℚ)) e.1)
          = [] := by
        rw [List.filter_eq_nil_iff]
        intro e he
        have h1 : ExtQ.blt (.fin ((floorToMidnight tz now + 86399999 : ℤ) : ℚ))
            (.fin ((floorToMidnight tz now + 86399999 : ℤ) : ℚ)) = false := by
          rw [ExtQ.blt, ExtQ.ble_refl]
          rfl
        have h2 := ExtQ.blt_false_of_ble h1 (hle e he)
        show ExtQ.blt (.fin ((floorToMidnight tz now + 86399999 : ℤ) : ℚ)) e.1 ≠ true
        rw [h2]
        exact Bool.false_ne_true
      rw [hnil, List.map_nil, List.sum_nil]
    rw [hzero, sub_zero, max_eq_right hcb]

unseal Rat.add Rat.mul Rat.sub Rat.inv in
/-- Claim C1, witness: at `tz = 0`, `now = 0`, no transfers and
`currentBalance = 5`, the amended anchor conjunct gives a final balance of 5. -/
theorem generateBalanceChart_amended_witness :
    ((generateBalanceChartFromCurrent 0 0 [] "a" 5).getD 9 ⟨"", 0⟩).balance = 5 :=
  (generateBalanceChart_amended 0 0 [] "a" 5 (by decide) (by decide)).2.2.2
    (by decide) (fun e he => absurd he (List.not_mem_nil e))
